import Mathlib

/-!
# Verification of the ly2video synchronisation core

Shallow embedding, in Lean 4, of the parts of the ly2video code base that
the specification's claims are about:

* `ly2video/synchro.py` — the `TimeCode` frame scheduler
  (`ticksToSecs`, `secsElapsedForTempoChanges`, `nbFramesToNextNote`);
* `ly2video/cli.py` — trace parsing (`getLeftmostGrobsByMoment`),
  MIDI extraction (`getMidiEvents` and helpers) and the two-pointer
  alignment (`getNoteIndices`);
* `ly2video/ly/tokenize.py` — the mode-stack tokenizer.

Python floats are modelled as rationals (`ℚ`), Python ints as `ℤ`/`ℕ`.
Python's built-in `round` (banker's rounding, half to even) is modelled
exactly by `pyRound`.  Functions that can hit `bug()` / `fatal()` or raise
a Python exception are modelled in `Except`.
-/

namespace Ly2Video

/-- Python 3's `round` on a real value, modelled on `ℚ`: round half to even. -/
def pyRound (q : ℚ) : ℤ :=
  if q - ⌊q⌋ < 1/2 then ⌊q⌋
  else if 1/2 < q - ⌊q⌋ then ⌊q⌋ + 1
  else if 2 ∣ ⌊q⌋ then ⌊q⌋ else ⌊q⌋ + 1

/-- Python's `int()` truncation toward zero on a rational. -/
def pyInt (q : ℚ) : ℤ :=
  if 0 ≤ q then ⌊q⌋ else ⌈q⌉

namespace Synchro

/-- State of `TimeCode` relevant to `secsElapsedForTempoChanges`:
`self.tempoIndex` and `self.tempo` persist across calls. -/
structure TCState where
  tempoIndex : ℕ
  tempo : ℚ
deriving DecidableEq

/-- `TimeCode.ticksToSecs(startTick, endTick)` at a given tempo:
`beats = (endTick - startTick) / midiResolution`; `secs = beats * 60 / tempo`. -/
def ticksToSecs (midiResolution tempo startTick endTick : ℚ) : ℚ :=
  (endTick - startTick) / midiResolution * 60 / tempo

/-- The `while self.tempoIndex < len(self.temposList)` loop of
`TimeCode.secsElapsedForTempoChanges`, acting on the part of `temposList`
from `tempoIndex` on.  Arguments after `endTick`: remaining tempo list,
current `self.tempo`, `lastTick`.  Returns the accumulated seconds
(including the final `ticksToSecs(lastTick, endTick)` applied after the
loop), the final `self.tempo`, and how many list entries were consumed
(the increase of `self.tempoIndex`).  Note the source sets
`self.tempo = tempo` *before* adding `ticksToSecs(lastTick, tempoTick)`,
so the sub-interval ending at a tempo change is priced at the new tempo. -/
def secsLoop (res startTick endTick : ℚ) :
    List (ℚ × ℚ) → ℚ → ℚ → ℚ × ℚ × ℕ
  | [], tempo, lastTick => (ticksToSecs res tempo lastTick endTick, tempo, 0)
  | (tempoTick, tp) :: rest, tempo, lastTick =>
      if endTick ≤ tempoTick then
        (ticksToSecs res tempo lastTick endTick, tempo, 0)
      else if tempoTick = startTick then
        let r := secsLoop res startTick endTick rest tp lastTick
        (r.1, r.2.1, r.2.2 + 1)
      else
        let r := secsLoop res startTick endTick rest tp tempoTick
        (ticksToSecs res tp lastTick tempoTick + r.1, r.2.1, r.2.2 + 1)

/-- `TimeCode.secsElapsedForTempoChanges(startTick, endTick)`: stateful in
`tempoIndex` and `tempo`; returns the elapsed seconds and the new state. -/
def secsElapsedForTempoChanges (res : ℚ) (temposList : List (ℚ × ℚ))
    (st : TCState) (startTick endTick : ℚ) : ℚ × TCState :=
  let r := secsLoop res startTick endTick (temposList.drop st.tempoIndex)
    st.tempo startTick
  (r.1, ⟨st.tempoIndex + r.2.2, r.2.1⟩)

/-- The state established by `TimeCode.__init__`: `tempoIndex = 0` and
`tempo` the bpm of the first entry of `temposList`. -/
def tcInit (temposList : List (ℚ × ℚ)) : TCState :=
  ⟨0, (temposList.headD (0, 0)).2⟩

/-- State of `TimeCode` relevant to `nbFramesToNextNote`: the ideal wall
clock `self.secs` and the frame counter `self.__wroteFrames`. -/
structure FrameState where
  secs : ℚ
  wroteFrames : ℤ
deriving DecidableEq

/-- `TimeCode.nbFramesToNextNote()`, with the seconds elapsed to the next
tick (the value of `secsElapsedForTempoChanges(currentTick, nextTick)`)
passed in as `secsSinceIndex`.  Returns the frame count and the new state. -/
def nbFramesToNextNote (fps : ℚ) (st : FrameState) (secsSinceIndex : ℚ) :
    ℤ × FrameState :=
  let targetSecs := st.secs + secsSinceIndex
  let neededFrameSetSecs := targetSecs - (st.wroteFrames : ℚ) / fps
  let neededFrames := pyRound (neededFrameSetSecs * fps)
  (neededFrames, ⟨targetSecs, st.wroteFrames + neededFrames⟩)

/-- Iterated `nbFramesToNextNote` over a list of per-segment ideal
durations, starting from the initial state `secs = 0`, `wroteFrames = 0`. -/
def runFrames (fps : ℚ) (deltas : List ℚ) : FrameState :=
  deltas.foldl (fun st d => (nbFramesToNextNote fps st d).2) ⟨0, 0⟩

/-! Concrete instances used to check `TimeCode` behaviour on the
scenarios of `test.py` and on specific inputs. -/

/-- The tempo timeline of `testSecsElapsedForTempoChanges` (scenario B). -/
def tempoScenarioB : List (ℚ × ℚ) := [(0, 60), (1152, 90), (3456, 60)]

/-- First query of scenario B, from the freshly initialised state. -/
def scenB1 : ℚ × TCState :=
  secsElapsedForTempoChanges 384 tempoScenarioB (tcInit tempoScenarioB) 0 1152

/-- Second query of scenario B, continuing from the state left by the first. -/
def scenB2 : ℚ × TCState :=
  secsElapsedForTempoChanges 384 tempoScenarioB scenB1.2 0 3456

/-- Third query of scenario B. -/
def scenB3 : ℚ × TCState :=
  secsElapsedForTempoChanges 384 tempoScenarioB scenB2.2 1152 3456

/-- Fourth query of scenario B. -/
def scenB4 : ℚ × TCState :=
  secsElapsedForTempoChanges 384 tempoScenarioB scenB3.2 3456 4608

/-- Fifth query of scenario B. -/
def scenB5 : ℚ × TCState :=
  secsElapsedForTempoChanges 384 tempoScenarioB scenB4.2 0 4608

/-- A two-tempo timeline: 60 bpm from tick 0, 90 bpm from tick 1152. -/
def tempoTwo : List (ℚ × ℚ) := [(0, 60), (1152, 90)]

/-- `secsElapsedForTempoChanges` over the whole interval `[0, 2304]`. -/
def addWhole : ℚ × TCState :=
  secsElapsedForTempoChanges 384 tempoTwo (tcInit tempoTwo) 0 2304

/-- `secsElapsedForTempoChanges` over `[0, 1152]`, fresh state. -/
def addPart1 : ℚ × TCState :=
  secsElapsedForTempoChanges 384 tempoTwo (tcInit tempoTwo) 0 1152

/-- `secsElapsedForTempoChanges` over `[1152, 2304]`, continuing from
the state left by `addPart1`. -/
def addPart2 : ℚ × TCState :=
  secsElapsedForTempoChanges 384 tempoTwo addPart1.2 1152 2304

/-- The `TimeCode` frame state after one `nbFramesToNextNote` call with
`fps = 2` and an elapsed duration of `5/8` seconds. -/
def cexFrameState1 : FrameState := (nbFramesToNextNote 2 ⟨0, 0⟩ (5/8)).2

end Synchro

namespace Tok

/-! Embedding of `ly/tokenize.py`: the `Tokenizer` class.  The parser-mode
stack `self.state` is a list whose *head* models the Python list's last
element (the current parser, `self.state[-1]`). -/

/-- The `Parser` subclasses of `Tokenizer`. -/
inductive ParserClass where
  | toplevel
  | stringP
  | blockComment
  | schemeBlockComment
  | scheme
  | markup
  | lyricMode
  | chordMode
  | figureMode
  | noteMode
  | section
  | context
  | includeP
  | language
deriving DecidableEq

/-- The class-level `argcount` attribute of each `Parser` subclass
(`Parser.argcount = 0`, overridden to 1 by `SchemeParser`, `MarkupParser`,
`InputModeParser` and its subclasses, `SectionParser`, `ContextParser`,
`IncludeParser`, `LanguageParser`). -/
def defaultArgcount : ParserClass → ℕ
  | .toplevel => 0
  | .stringP => 0
  | .blockComment => 0
  | .schemeBlockComment => 0
  | _ => 1

/-- A `Parser` instance: its class, `self.level` (starts at 0) and
`self.argcount`.  The `token` attribute is stored by the source but never
read back in a way that affects control flow, so it is omitted. -/
structure ParserInst where
  cls : ParserClass
  level : ℕ
  argcount : ℕ
deriving DecidableEq

/-- `Parser.__init__`: `level = 0`; `argcount` is the constructor argument
if given, the class attribute otherwise. -/
def mkParser (cls : ParserClass) (argc : Option ℕ) : ParserInst :=
  ⟨cls, 0, argc.getD (defaultArgcount cls)⟩

/-- `Tokenizer.reset`: `self.state = [parserClass()]`. -/
def resetState (cls : ParserClass) : List ParserInst :=
  [mkParser cls none]

/-- `Tokenizer.enter`: push a new parser instance. -/
def enter (cls : ParserClass) (argc : Option ℕ) (s : List ParserInst) :
    List ParserInst :=
  mkParser cls argc :: s

/-- `Tokenizer.leave`: pop, but only while more than one parser remains. -/
def leave (s : List ParserInst) : List ParserInst :=
  if 1 < s.length then s.tail else s

/-- `Tokenizer.endArgument`: while more than one parser remains and the
current parser's `level` is 0 — decrement `argcount` and stop if it is
greater than 1, stop if it is 0, otherwise pop and repeat. -/
def endArgument : List ParserInst → List ParserInst
  | [] => []
  | p :: rest =>
      if rest ≠ [] ∧ p.level = 0 then
        if 1 < p.argcount then ⟨p.cls, p.level, p.argcount - 1⟩ :: rest
        else if p.argcount = 0 then p :: rest
        else endArgument rest
      else p :: rest

/-- `Tokenizer.inc`: `self.state[-1].level += 1`. -/
def inc : List ParserInst → List ParserInst
  | [] => []
  | p :: rest => ⟨p.cls, p.level + 1, p.argcount⟩ :: rest

/-- The `while self.state[-1].level == 0 and len(self.state) > 1` pop loop
at the start of `Tokenizer.dec`. -/
def decPopLoop : List ParserInst → List ParserInst
  | [] => []
  | p :: rest =>
      if p.level = 0 ∧ rest ≠ [] then decPopLoop rest else p :: rest

/-- `Tokenizer.dec`: pop exhausted parsers, then decrement the current
level if positive and run `endArgument`. -/
def dec (s : List ParserInst) : List ParserInst :=
  match decPopLoop s with
  | [] => []
  | p :: rest =>
      if 0 < p.level then endArgument (⟨p.cls, p.level - 1, p.argcount⟩ :: rest)
      else p :: rest

/-- The state-manipulating operations of the tokenizer. -/
inductive TokOp where
  | enter (cls : ParserClass) (argc : Option ℕ)
  | leave
  | endArgument
  | inc
  | dec
deriving DecidableEq

/-- Apply one operation to the parser stack. -/
def applyOp (s : List ParserInst) : TokOp → List ParserInst
  | .enter cls argc => enter cls argc s
  | .leave => leave s
  | .endArgument => endArgument s
  | .inc => inc s
  | .dec => dec s

/-- Apply a sequence of operations, first operation first. -/
def applyOps (ops : List TokOp) (s : List ParserInst) : List ParserInst :=
  ops.foldl applyOp s

/-! Embedding of `Tokenizer.tokens` and the token classes / `Parser`
`items` tables of `ly/tokenize.py`.  Python regular expressions are
modelled by a small backtracking matcher whose alternative order and
greedy repetition mirror `re`'s leftmost-alternative, greedy,
backtracking semantics; `fuel` bounds the recursion depth (every token
regex of the source consumes at least one character per repetition, so
ample fuel is behaviour-preserving).  `m.lastgroup` on the alternation
built by `_make_re` names the single top-level named group that matched,
i.e. the first `items()` entry whose pattern matches. -/

/-- Regular-expression syntax: empty string, single character, character
class (a predicate), concatenation, prioritized alternation, greedy
Kleene star, and negative lookahead `(?!...)`. -/
inductive RE where
  | eps
  | chr (c : Char)
  | cls (p : Char → Bool)
  | seq (a b : RE)
  | alt (a b : RE)
  | star (a : RE)
  | nla (a : RE)

/-- `r+` is `r r*`. -/
def rePlus (r : RE) : RE := .seq r (.star r)

/-- `r?`. -/
def reOpt (r : RE) : RE := .alt r .eps

/-- A literal character sequence. -/
def reChars : List Char → RE
  | [] => .eps
  | c :: cs => .seq (.chr c) (reChars cs)

/-- A literal string. -/
def reStr (s : String) : RE := reChars s.data

/-- Prioritized alternation of a list of alternatives (an empty list
never matches). -/
def reAlts : List RE → RE
  | [] => .cls fun _ => false
  | [r] => r
  | r :: rs => .alt r (reAlts rs)

/-- Backtracking matcher in continuation style: `mrun fuel r s k` feeds
every way `r` can match a prefix of `s` — most preferred first (left
alternative before right, one more greedy repetition before stopping) —
to the continuation `k` until it succeeds, mirroring Python `re`
backtracking.  `fuel` decreases at every node visited. -/
def mrun : ℕ → RE → List Char → (List Char → Option (List Char)) → Option (List Char)
  | 0, _, _, _ => none
  | fuel + 1, r, s, k =>
    match r with
    | .eps => k s
    | .chr c =>
      match s with
      | [] => none
      | x :: xs => if x = c then k xs else none
    | .cls p =>
      match s with
      | [] => none
      | x :: xs => if p x then k xs else none
    | .seq a b => mrun fuel a s fun s2 => mrun fuel b s2 k
    | .alt a b =>
      match mrun fuel a s k with
      | some res => some res
      | none => mrun fuel b s k
    | .star a =>
      match mrun fuel a s fun s2 => mrun fuel (.star a) s2 k with
      | some res => some res
      | none => k s
    | .nla a =>
      match mrun fuel a s some with
      | some _ => none
      | none => k s

/-- The remainder of `s` after the preferred match of `r` at position 0,
or `none` if `r` does not match at position 0. -/
def reMatchRem (fuel : ℕ) (r : RE) (s : List Char) : Option (List Char) :=
  mrun fuel r s some

/-- ASCII `[A-Za-z]`. -/
def isAsciiLetter (c : Char) : Bool :=
  ('A' ≤ c && c ≤ 'Z') || ('a' ≤ c && c ≤ 'z')

/-- ASCII `[0-9]`. -/
def isAsciiDigit (c : Char) : Bool := '0' ≤ c && c ≤ '9'

/-- Python `\w` (ASCII range; the scores fed to the tokenizer are ASCII). -/
def isWordChar (c : Char) : Bool :=
  isAsciiLetter c || isAsciiDigit c || c = '_'

/-- Python `\s`. -/
def isSpaceChar (c : Char) : Bool :=
  c = ' ' || c = '\t' || c = '\n' || c = '\r' || c = '\x0b' || c = '\x0c'

/-- `\b` after a word character: the next character, if any, is not a
word character (every `\b` in the source's regexes follows a letter). -/
def wordB : RE := .nla (.cls isWordChar)

/-- The token classes of `Tokenizer` (`m.lastgroup` values), plus
`Unparsed` for text skipped between matches. -/
inductive TokName where
  | unparsed
  | newLine
  | space
  | stringQuoted
  | stringQuoteStart
  | stringQuoteEnd
  | stringFragment
  | lineComment
  | blockCommentStart
  | blockCommentEnd
  | blockCommentFragment
  | scheme
  | schemeOpenParenthesis
  | schemeCloseParenthesis
  | schemeQuote
  | schemeChar
  | schemeWord
  | schemeLily
  | endSchemeLily
  | schemeLineComment
  | schemeBlockCommentStart
  | schemeBlockCommentEnd
  | schemeBlockCommentFragment
  | command
  | section
  | context
  | markup
  | markupLines
  | language
  | languageName
  | includeCmd
  | includeFile
  | includeLanguageFile
  | openDelimiter
  | closeDelimiter
  | dynamic
  | voiceSeparator
  | articulation
  | openBracket
  | closeBracket
  | pitchWord
  | markupScore
  | markupCommand
  | markupWord
  | lyricMode
  | chordMode
  | figureMode
  | noteMode
  | lyricWord
deriving DecidableEq

/-- The state manipulation a token class performs on instantiation
(`__init__` of the class or of the `Item`/`Increaser`/`Decreaser`/
`Leaver` base it inherits from). -/
inductive TokAct where
  | noAct
  | endArg
  | incAct
  | decAct
  | leaveAct
  | leaveEndArg
  | enterP (cls : ParserClass)
  | enterArgc (cls : ParserClass) (argc : ℕ)
  | markupCmd
  | lyricModeAct
  | languageNameAct
  | includeLanguageAct

/-- A token class: its name, its `rx` pattern and its state action. -/
structure TokClass where
  name : TokName
  re : RE
  act : TokAct

/-- `words.markupcommands_nargs[0]`. -/
def markupcommands_nargs0 : List String :=
  ["doubleflat", "doublesharp", "eyeglasses", "flat", "natural", "null",
   "semiflat", "semisharp", "sesquiflat", "sesquisharp", "sharp", "strut"]

/-- `words.markupcommands_nargs[2]`. -/
def markupcommands_nargs2 : List String :=
  ["abs-fontsize", "combine", "fontsize", "fraction", "halign",
   "hcenter-in", "lower", "magnify", "note", "on-the-fly", "override",
   "pad-around", "pad-markup", "pad-x", "path", "raise", "rotate",
   "translate", "translate-scaled", "with-color", "with-url"]

/-- `words.markupcommands_nargs[3]`. -/
def markupcommands_nargs3 : List String :=
  ["arrow-head", "beam", "draw-circle", "eps-file", "filled-box",
   "general-align", "note-by-number", "pad-to-box", "page-ref",
   "with-dimensions"]

/-- `words.markupcommands_nargs[4]`. -/
def markupcommands_nargs4 : List String := ["put-adjacent"]

/-- Modelled from the spec: the language names that key the per-language
pitch tables (the `pitch` module imported by `tokenize.py` is not in the
repository; the spec describes per-language spelling tables).  Only the
`LanguageName` / `IncludeLanguageFile` regexes use this list, and no
theorem below exercises them. -/
def pitchInfoKeys : List String :=
  ["nederlands", "english", "deutsch", "norsk", "svenska", "italiano",
   "catalan", "espanol", "portugues", "vlaams"]

/-- `NewLine`: `\n`. -/
def tcNewLine : TokClass := ⟨.newLine, .chr '\n', .noAct⟩

/-- `Space`: `\s+`. -/
def tcSpace : TokClass := ⟨.space, rePlus (.cls isSpaceChar), .noAct⟩

/-- The repeated body of the quoted-string regexes:
`(\\[\\"]|[^"\n])`. -/
def stringBodyRE : RE :=
  .alt (.seq (.chr '\\') (.cls fun c => c = '\\' || c = '"'))
    (.cls fun c => !(c = '"' || c = '\n'))

/-- `StringQuoted` (an `Item`): a complete string on one line. -/
def tcStringQuoted : TokClass :=
  ⟨.stringQuoted, .seq (.chr '"') (.seq (.star stringBodyRE) (.chr '"')),
    .endArg⟩

/-- `StringQuoteStart`: `"` — enters `StringParser`. -/
def tcStringQuoteStart : TokClass :=
  ⟨.stringQuoteStart, .chr '"', .enterP .stringP⟩

/-- `StringQuoteEnd`: `"` — `leave()` then `endArgument()`. -/
def tcStringQuoteEnd : TokClass := ⟨.stringQuoteEnd, .chr '"', .leaveEndArg⟩

/-- `StringFragment`: `(\\[\\"]|[^"\n])+` — no state change. -/
def tcStringFragment : TokClass :=
  ⟨.stringFragment, rePlus stringBodyRE, .noAct⟩

/-- `LineComment`: `%[^\n]*`. -/
def tcLineComment : TokClass :=
  ⟨.lineComment, .seq (.chr '%') (.star (.cls fun c => !(c = '\n'))),
    .noAct⟩

/-- `BlockCommentStart`: `%{` — enters `BlockCommentParser`. -/
def tcBlockCommentStart : TokClass :=
  ⟨.blockCommentStart, .seq (.chr '%') (.chr '\x7b'),
    .enterP .blockComment⟩

/-- `BlockCommentEnd` (a `Leaver`): `%}`. -/
def tcBlockCommentEnd : TokClass :=
  ⟨.blockCommentEnd, .seq (.chr '%') (.chr '\x7d'), .leaveAct⟩

/-- `BlockCommentFragment`: `(%(?!\})|[^%\n])+` — no state change. -/
def tcBlockCommentFragment : TokClass :=
  ⟨.blockCommentFragment,
    rePlus (.alt (.seq (.chr '%') (.nla (.chr '\x7d')))
      (.cls fun c => !(c = '%' || c = '\n'))),
    .noAct⟩

/-- `Scheme`: `#` — enters `SchemeParser`. -/
def tcScheme : TokClass := ⟨.scheme, .chr '#', .enterP .scheme⟩

/-- `SchemeOpenParenthesis` (an `Increaser`). -/
def tcSchemeOpenParenthesis : TokClass :=
  ⟨.schemeOpenParenthesis, .chr '(', .incAct⟩

/-- `SchemeCloseParenthesis` (a `Decreaser`). -/
def tcSchemeCloseParenthesis : TokClass :=
  ⟨.schemeCloseParenthesis, .chr ')', .decAct⟩

/-- `SchemeQuote`: one of `'`, `,`, a backquote. -/
def tcSchemeQuote : TokClass :=
  ⟨.schemeQuote, .cls fun c => c = '\x27' || c = ',' || c = '\x60',
    .noAct⟩

/-- `SchemeChar` (an `Item`): `#\\([a-z]+|.)` (`.` is any character but
a newline). -/
def tcSchemeChar : TokClass :=
  ⟨.schemeChar,
    .seq (.chr '#') (.seq (.chr '\\')
      (.alt (rePlus (.cls fun c => 'a' ≤ c && c ≤ 'z'))
        (.cls fun c => !(c = '\n')))),
    .endArg⟩

/-- `SchemeWord` (an `Item`): `[^()"{}\s]+`. -/
def tcSchemeWord : TokClass :=
  ⟨.schemeWord,
    rePlus (.cls fun c => !(c = '(' || c = ')' || c = '"' || c = '\x7b' ||
      c = '\x7d' || isSpaceChar c)),
    .endArg⟩

/-- `SchemeLily`: `#{` — enters a nested `ToplevelParser`. -/
def tcSchemeLily : TokClass :=
  ⟨.schemeLily, .seq (.chr '#') (.chr '\x7b'), .enterP .toplevel⟩

/-- `EndSchemeLily` (a `Leaver`): `#}`. -/
def tcEndSchemeLily : TokClass :=
  ⟨.endSchemeLily, .seq (.chr '#') (.chr '\x7d'), .leaveAct⟩

/-- `SchemeLineComment`: `;[^\n]*`. -/
def tcSchemeLineComment : TokClass :=
  ⟨.schemeLineComment,
    .seq (.chr ';') (.star (.cls fun c => !(c = '\n'))), .noAct⟩

/-- `SchemeBlockCommentStart`: `#!` — enters
`SchemeBlockCommentParser`. -/
def tcSchemeBlockCommentStart : TokClass :=
  ⟨.schemeBlockCommentStart, .seq (.chr '#') (.chr '!'),
    .enterP .schemeBlockComment⟩

/-- `SchemeBlockCommentEnd` (a `Leaver`): `!#`. -/
def tcSchemeBlockCommentEnd : TokClass :=
  ⟨.schemeBlockCommentEnd, .seq (.chr '!') (.chr '#'), .leaveAct⟩

/-- `SchemeBlockCommentFragment`: `(!(?!#)|[^!\n])+`. -/
def tcSchemeBlockCommentFragment : TokClass :=
  ⟨.schemeBlockCommentFragment,
    rePlus (.alt (.seq (.chr '!') (.nla (.chr '#')))
      (.cls fun c => !(c = '!' || c = '\n'))),
    .noAct⟩

/-- `Command` (an `Item`): `\\[A-Za-z]+(-[A-Za-z]+)*`. -/
def commandRE : RE :=
  .seq (.chr '\\') (.seq (rePlus (.cls isAsciiLetter))
    (.star (.seq (.chr '-') (rePlus (.cls isAsciiLetter)))))

/-- `Command` as a token class. -/
def tcCommand : TokClass := ⟨.command, commandRE, .endArg⟩

/-- `Section`: `\\(with|layout|midi|paper|header)\b` — enters
`SectionParser`. -/
def tcSection : TokClass :=
  ⟨.section,
    .seq (.chr '\\') (.seq (reAlts [reStr "with", reStr "layout",
      reStr "midi", reStr "paper", reStr "header"]) wordB),
    .enterP .section⟩

/-- `Context`: `\\context\b` — enters `ContextParser`. -/
def tcContext : TokClass :=
  ⟨.context, .seq (reStr "\\context") wordB, .enterP .context⟩

/-- `Markup`: `\\markup\b` — enters `MarkupParser`. -/
def tcMarkup : TokClass :=
  ⟨.markup, .seq (reStr "\\markup") wordB, .enterP .markup⟩

/-- `MarkupLines`: `\\markuplines\b` — enters `MarkupParser`. -/
def tcMarkupLines : TokClass :=
  ⟨.markupLines, .seq (reStr "\\markuplines") wordB, .enterP .markup⟩

/-- `Language`: `\\language\b` — enters `LanguageParser`. -/
def tcLanguage : TokClass :=
  ⟨.language, .seq (reStr "\\language") wordB, .enterP .language⟩

/-- `LanguageName`: a quoted language name — sets the tokenizer language
and ends an argument. -/
def tcLanguageName : TokClass :=
  ⟨.languageName,
    .seq (.chr '"') (.seq (reAlts (pitchInfoKeys.map reStr)) (.chr '"')),
    .languageNameAct⟩

/-- `Include`: `\\include\b` — enters `IncludeParser`. -/
def tcInclude : TokClass :=
  ⟨.includeCmd, .seq (reStr "\\include") wordB, .enterP .includeP⟩

/-- `IncludeFile` (a `StringQuoted`, hence an `Item`):
`"(\\[\\"]|[^"])*"`. -/
def tcIncludeFile : TokClass :=
  ⟨.includeFile,
    .seq (.chr '"')
      (.seq (.star (.alt (.seq (.chr '\\')
          (.cls fun c => c = '\\' || c = '"'))
        (.cls fun c => !(c = '"')))) (.chr '"')),
    .endArg⟩

/-- `IncludeLanguageFile`: `"<language>.ly"` — sets the language and ends
an argument. -/
def tcIncludeLanguageFile : TokClass :=
  ⟨.includeLanguageFile,
    .seq (.chr '"') (.seq (reAlts (pitchInfoKeys.map reStr))
      (.seq (reStr ".ly") (.chr '"'))),
    .includeLanguageAct⟩

/-- `OpenDelimiter` (an `Increaser`): `<<|{`. -/
def tcOpenDelimiter : TokClass :=
  ⟨.openDelimiter, .alt (reStr "<<") (.chr '\x7b'), .incAct⟩

/-- `CloseDelimiter` (a `Decreaser`): `>>|}`. -/
def tcCloseDelimiter : TokClass :=
  ⟨.closeDelimiter, .alt (reStr ">>") (.chr '\x7d'), .decAct⟩

/-- `Dynamic`: `\\[<>!]`. -/
def tcDynamic : TokClass :=
  ⟨.dynamic,
    .seq (.chr '\\') (.cls fun c => c = '<' || c = '>' || c = '!'),
    .noAct⟩

/-- `VoiceSeparator`: `\\\\`. -/
def tcVoiceSeparator : TokClass :=
  ⟨.voiceSeparator, .seq (.chr '\\') (.chr '\\'), .noAct⟩

/-- `Articulation`: `[-_^][_.>|+^-]`. -/
def tcArticulation : TokClass :=
  ⟨.articulation,
    .seq (.cls fun c => c = '-' || c = '_' || c = '^')
      (.cls fun c => c = '_' || c = '.' || c = '>' || c = '|' ||
        c = '+' || c = '^' || c = '-'),
    .noAct⟩

/-- `OpenBracket` (an `Increaser`): `{`. -/
def tcOpenBracket : TokClass := ⟨.openBracket, .chr '\x7b', .incAct⟩

/-- `CloseBracket` (a `Decreaser`): `}`. -/
def tcCloseBracket : TokClass := ⟨.closeBracket, .chr '\x7d', .decAct⟩

/-- `PitchWord` (an `Item`): `[A-Za-z]+`. -/
def tcPitchWord : TokClass :=
  ⟨.pitchWord, rePlus (.cls isAsciiLetter), .endArg⟩

/-- `MarkupScore`: `\\score\b` — enters a `ToplevelParser` with
argcount 1. -/
def tcMarkupScore : TokClass :=
  ⟨.markupScore, .seq (reStr "\\score") wordB, .enterArgc .toplevel 1⟩

/-- `MarkupCommand`: the `Command` pattern with the
`words.markupcommands_nargs`-driven action. -/
def tcMarkupCommand : TokClass := ⟨.markupCommand, commandRE, .markupCmd⟩

/-- `MarkupWord` (an `Item`): `[^{}"\\\s#]+`. -/
def tcMarkupWord : TokClass :=
  ⟨.markupWord,
    rePlus (.cls fun c => !(c = '\x7b' || c = '\x7d' || c = '"' ||
      c = '\\' || isSpaceChar c || c = '#')),
    .endArg⟩

/-- `LyricMode`: `\\(lyricmode|((old)?add)?lyrics|lyricsto)\b` — enters
`LyricModeParser` with argcount 2 for `\lyricsto`, 1 otherwise. -/
def tcLyricMode : TokClass :=
  ⟨.lyricMode,
    .seq (.chr '\\')
      (.seq (reAlts [reStr "lyricmode",
        .seq (reOpt (.seq (reOpt (reStr "old")) (reStr "add")))
          (reStr "lyrics"),
        reStr "lyricsto"]) wordB),
    .lyricModeAct⟩

/-- `ChordMode`: `\\(chords|chordmode)\b`. -/
def tcChordMode : TokClass :=
  ⟨.chordMode,
    .seq (.chr '\\') (.seq (reAlts [reStr "chords", reStr "chordmode"])
      wordB),
    .enterP .chordMode⟩

/-- `FigureMode`: `\\(figures|figuremode)\b`. -/
def tcFigureMode : TokClass :=
  ⟨.figureMode,
    .seq (.chr '\\') (.seq (reAlts [reStr "figures", reStr "figuremode"])
      wordB),
    .enterP .figureMode⟩

/-- `NoteMode`: `\\(notes|notemode)\b`. -/
def tcNoteMode : TokClass :=
  ⟨.noteMode,
    .seq (.chr '\\') (.seq (reAlts [reStr "notes", reStr "notemode"])
      wordB),
    .enterP .noteMode⟩

/-- `LyricWord` (an `Item`): `[^\W\d]+` (ASCII: letters and
underscore). -/
def tcLyricWord : TokClass :=
  ⟨.lyricWord, rePlus (.cls fun c => isAsciiLetter c || c = '_'),
    .endArg⟩

/-- `lilybaseItems`, in source order. -/
def lilybaseItems : List TokClass :=
  [tcBlockCommentStart, tcLineComment, tcStringQuoted, tcStringQuoteStart,
   tcEndSchemeLily, tcScheme, tcSection, tcLyricMode, tcChordMode,
   tcFigureMode, tcNoteMode, tcMarkup, tcMarkupLines, tcInclude,
   tcLanguage, tcCommand, tcSpace]

/-- The `items()` table of each `Parser` subclass (`ChordModeParser`,
`FigureModeParser` and `NoteModeParser` inherit `ToplevelParser`'s). -/
def itemsOf : ParserClass → List TokClass
  | .toplevel | .chordMode | .figureMode | .noteMode =>
    [tcOpenDelimiter, tcCloseDelimiter, tcPitchWord, tcDynamic,
     tcVoiceSeparator, tcArticulation] ++ lilybaseItems
  | .stringP => [tcStringQuoteEnd, tcStringFragment, tcNewLine]
  | .blockComment => [tcBlockCommentEnd, tcBlockCommentFragment, tcNewLine]
  | .schemeBlockComment =>
    [tcSchemeBlockCommentEnd, tcSchemeBlockCommentFragment, tcNewLine]
  | .scheme =>
    [tcStringQuoteStart, tcSchemeChar, tcSchemeQuote, tcSchemeLineComment,
     tcSchemeBlockCommentStart, tcSchemeOpenParenthesis,
     tcSchemeCloseParenthesis, tcSchemeLily, tcSchemeWord, tcSpace]
  | .markup =>
    [tcMarkupScore, tcMarkupCommand, tcOpenBracket, tcCloseBracket,
     tcMarkupWord] ++ lilybaseItems
  | .lyricMode =>
    [tcOpenBracket, tcCloseBracket, tcLyricWord] ++ lilybaseItems
  | .section =>
    [tcOpenBracket, tcCloseBracket, tcContext] ++ lilybaseItems
  | .context => [tcOpenBracket, tcCloseBracket] ++ lilybaseItems
  | .includeP =>
    [tcIncludeLanguageFile, tcIncludeFile] ++ lilybaseItems
  | .language => [tcLanguageName] ++ lilybaseItems

/-- Apply a token class's state action on instantiation.  `tok` is the
matched text (needed by `MarkupCommand`, `LyricMode` and the
language-setting classes). -/
def applyAct (act : TokAct) (tok : List Char) (stack : List ParserInst)
    (lang : String) : List ParserInst × String :=
  match act with
  | .noAct => (stack, lang)
  | .endArg => (endArgument stack, lang)
  | .incAct => (inc stack, lang)
  | .decAct => (dec stack, lang)
  | .leaveAct => (leave stack, lang)
  | .leaveEndArg => (endArgument (leave stack), lang)
  | .enterP cls => (enter cls none stack, lang)
  | .enterArgc cls n => (enter cls (some n) stack, lang)
  | .markupCmd =>
    let command := String.mk (tok.drop 1)
    if command ∈ markupcommands_nargs0 then (endArgument stack, lang)
    else
      let argcount :=
        if command ∈ markupcommands_nargs2 then 2
        else if command ∈ markupcommands_nargs3 then 3
        else if command ∈ markupcommands_nargs4 then 4
        else 1
      (enter .markup (some argcount) stack, lang)
  | .lyricModeAct =>
    let argcount := if tok = ('\\' :: "lyricsto".data) then 2 else 1
    (enter .lyricMode (some argcount) stack, lang)
  | .languageNameAct =>
    (endArgument stack, String.mk ((tok.drop 1).take (tok.length - 2)))
  | .includeLanguageAct =>
    (endArgument stack, String.mk ((tok.drop 1).take (tok.length - 5)))

/-- The first class of `items` whose pattern matches at position 0, with
the remainder after its preferred match (Python alternation tries the
alternatives in order). -/
def findMatch (fuel : ℕ) : List TokClass → List Char → Option (TokClass × List Char)
  | [], _ => none
  | tc :: rest, s =>
    match reMatchRem fuel tc.re s with
    | some rem => some (tc, rem)
    | none => findMatch fuel rest s

/-- `pattern.search(text, pos)`: scan forward for the first position with
a match; returns the number of characters skipped, the matching class and
the remainder. -/
def searchFrom (fuel : ℕ) (items : List TokClass) : List Char → Option (ℕ × TokClass × List Char)
  | [] =>
    match findMatch fuel items [] with
    | some (tc, rem) => some (0, tc, rem)
    | none => none
  | c :: xs =>
    match findMatch fuel items (c :: xs) with
    | some (tc, rem) => some (0, tc, rem)
    | none =>
      match searchFrom fuel items xs with
      | some (skip, tc, rem) => some (skip + 1, tc, rem)
      | none => none

/-- `self.parser()`: the class of `state[-1]` (the stack is never empty;
the `toplevel` default is unreachable). -/
def currentItems (stack : List ParserInst) : List TokClass :=
  itemsOf (match stack with
    | [] => ParserClass.toplevel
    | p :: _ => p.cls)

/-- The `tokens()` generator loop: search with the current parser's
pattern, yield an `Unparsed` for any skipped text, yield the matched
token (applying its state action), continue after the match; when no
match remains, yield a final `Unparsed` for any trailing text and stop.
There is no error path: the loop always ends by returning the token list.
The outer `fuel` only guards against a zero-width match (no source token
pattern can match zero characters, so ample fuel is
behaviour-preserving). -/
def tokensLoop (rfuel : ℕ) : ℕ → List ParserInst → String → List Char →
    List (TokName × List Char) →
    List (TokName × List Char) × List ParserInst × String
  | 0, stack, lang, _, acc => (acc, stack, lang)
  | fuel + 1, stack, lang, s, acc =>
    match searchFrom rfuel (currentItems stack) s with
    | none =>
      if s.isEmpty then (acc, stack, lang)
      else (acc ++ [(.unparsed, s)], stack, lang)
    | some (skip, tc, rem) =>
      let s1 := s.drop skip
      let tokStr := s1.take (s1.length - rem.length)
      let acc1 := if 0 < skip then acc ++ [(.unparsed, s.take skip)] else acc
      let st1 := applyAct tc.act tokStr stack lang
      tokensLoop rfuel fuel st1.1 st1.2 rem (acc1 ++ [(tc.name, tokStr)])

/-- Tokenize a text from a fresh `Tokenizer` (state
`[ToplevelParser()]`, language `"nederlands"`), with fuel ample for the
input. -/
def tokenize (text : List Char) :
    List (TokName × List Char) × List ParserInst × String :=
  tokensLoop (64 * (text.length + 1)) (text.length + 1)
    (resetState .toplevel) "nederlands" text []

end Tok

/-- The error tiers of `ly2video/utils.py` plus uncaught Python
exceptions: `bugE` models a `bug(...)` abort, `fatalE` a `fatal(...)`
abort; `keyError`/`indexError` model uncaught `KeyError`/`IndexError`.
Messages are kept as the source's format strings (interpolated values
omitted). -/
inductive Err where
  | bugE (msg : String)
  | fatalE (msg : String)
  | keyError
  | indexError
deriving DecidableEq

namespace Cli

/-! Embedding of the MIDI extraction part of `ly2video/cli.py`:
`make_time_abs`, `getTemposList`, `getNotesInTicks`, `getMidiEvents`. -/

/-- The kinds of mido messages the source inspects (`event.type`). -/
inductive EventKind where
  | noteOn (note : ℤ) (velocity : ℕ)
  | pitchwheel (pitch : ℤ)
  | endOfTrack
  | setTempo (tempo : ℤ)
  | other
deriving DecidableEq

/-- A mido message: its (delta, later absolute) time and its kind. -/
structure MidiEvent where
  time : ℤ
  kind : EventKind
deriving DecidableEq

/-- A mido `MidiFile`: `ticks_per_beat` and the list of tracks. -/
structure MidiFile where
  ticksPerBeat : ℤ
  tracks : List (List MidiEvent)
deriving DecidableEq

/-- The inner loop of `make_time_abs` on one track: running time starts
at 0 and each event's delta time is replaced by the running total. -/
def absTrack (t0 : ℤ) : List MidiEvent → List MidiEvent
  | [] => []
  | e :: rest => ⟨t0 + e.time, e.kind⟩ :: absTrack (t0 + e.time) rest

/-- `make_time_abs(midiFile)`: convert every track to absolute times. -/
def make_time_abs (f : MidiFile) : MidiFile :=
  ⟨f.ticksPerBeat, f.tracks.map (absTrack 0)⟩

/-- `mido.tempo2bpm`: microseconds per quarter note to beats per minute. -/
def tempo2bpm (tempo : ℤ) : ℚ := 60000000 / (tempo : ℚ)

/-- `getTemposList(midiFile)`: the `(tick, bpm)` pairs of the `set_tempo`
events on the first (conductor) track. -/
def getTemposList (f : MidiFile) : List (ℤ × ℚ) :=
  (f.tracks.headD []).filterMap fun e =>
    match e.kind with
    | .setTempo t => some (e.time, tempo2bpm t)
    | _ => none

/-- Append a NoteOn event to the `notesInTicks` dict (insertion-ordered
association list keyed by tick): `notesInTicks.setdefault(tick, []).append`. -/
def addNote (tick : ℤ) (e : MidiEvent) :
    List (ℤ × List MidiEvent) → List (ℤ × List MidiEvent)
  | [] => [(tick, [e])]
  | (t, es) :: rest =>
      if t = tick then (t, es ++ [e]) :: rest else (t, es) :: addNote tick e rest

/-- The per-track event loop of `getNotesInTicks`, carrying
`pendingPitchBend`.  The source also fills a `pitchBends` dict keyed by
the NoteOn *event objects*; that dict is omitted here because its only
consumer, `getMidiPitches`, probes it with an `int` pitch, which can
never equal an event key, so the bends never influence behaviour. -/
def notesTrackLoop (m : List (ℤ × List MidiEvent)) :
    Option MidiEvent → List MidiEvent → Except Err (List (ℤ × List MidiEvent))
  | _, [] => .ok m
  | some pb, e :: rest =>
      if pb.time ≠ e.time then
        .error (.bugE "Found orphaned pitch bend in tick %d")
      else
        match e.kind with
        | .noteOn _ vel =>
            if vel = 0 then .error (.bugE "Pitch bend was followed by NoteOff")
            else notesTrackLoop (addNote e.time e m) none rest
        | _ => .error (.bugE "Pitch bend was not followed by NoteOn in tick %d")
  | none, e :: rest =>
      match e.kind with
      | .pitchwheel bend =>
          notesTrackLoop m (if bend ≠ 0 then some e else none) rest
      | .noteOn _ vel =>
          if vel = 0 then notesTrackLoop m none rest
          else notesTrackLoop (addNote e.time e m) none rest
      | _ => notesTrackLoop m none rest

/-- `getNotesInTicks(midiFile)` over the non-conductor tracks (all tracks
but the first), threading the accumulated dict. -/
def notesTracks (m : List (ℤ × List MidiEvent)) :
    List (List MidiEvent) → Except Err (List (ℤ × List MidiEvent))
  | [] => .ok m
  | t :: ts =>
      match notesTrackLoop m none t with
      | .ok m' => notesTracks m' ts
      | .error e => .error e

/-- `getNotesInTicks(midiFile)`: dict from tick to its NoteOn events. -/
def getNotesInTicks (f : MidiFile) : Except Err (List (ℤ × List MidiEvent)) :=
  notesTracks [] f.tracks.tail

/-- Insert into a sorted list (used to model Python `sorted` on dict keys). -/
def insertSorted {α : Type} [LinearOrder α] (x : α) : List α → List α
  | [] => [x]
  | y :: rest => if x ≤ y then x :: y :: rest else y :: insertSorted x rest

/-- Python `sorted` on a list, as insertion sort. -/
def pySorted {α : Type} [LinearOrder α] (l : List α) : List α :=
  l.foldr insertSorted []

/-- The `endOfTrack` fold of `getMidiEvents`: over the non-conductor
tracks, whenever a track's final event is `end_of_track` and its tick
exceeds the accumulator (initially -1), take that tick.  Accessing
`eventsList[-1]` on an empty track raises `IndexError`. -/
def endOfTrackFold : List (List MidiEvent) → ℤ → Except Err ℤ
  | [], acc => .ok acc
  | t :: ts, acc =>
      match t.getLast? with
      | none => .error .indexError
      | some e =>
          endOfTrackFold ts
            (if e.kind = EventKind.endOfTrack then
              (if acc < e.time then e.time else acc) else acc)

/-- The data returned by `getMidiEvents` (the `pitchBends` component is
omitted, see `notesTrackLoop`). -/
structure MidiData where
  midiResolution : ℤ
  temposList : List (ℤ × ℚ)
  midiTicks : List ℤ
  notesInTicks : List (ℤ × List MidiEvent)
deriving DecidableEq

/-- `getMidiEvents(midiFileName)`, starting from the already-parsed mido
file: make times absolute, read the resolution and tempo list, collect
notes by tick, then append the end-of-track tick to the sorted tick
list. -/
def getMidiEvents (f : MidiFile) : Except Err MidiData :=
  if f.tracks = [] then .error .indexError
  else
    let fa := make_time_abs f
    match getNotesInTicks fa with
    | .error e => .error e
    | .ok notes =>
        match endOfTrackFold fa.tracks.tail (-1) with
        | .error e => .error e
        | .ok eot =>
            .ok ⟨fa.ticksPerBeat, getTemposList fa,
              pySorted (notes.map (·.1)) ++ [eot], notes⟩

/-- A two-track file in which a note-on shares the tick of the final
end-of-track event: conductor track empty, one music track holding a
note-on at delta time 5 followed by end-of-track at delta time 0. -/
def noteOnFinalTickFile : MidiFile :=
  ⟨384, [[], [⟨5, EventKind.noteOn 60 64⟩, ⟨0, EventKind.endOfTrack⟩]]⟩

/-- The extractor's output on `noteOnFinalTickFile`. -/
def noteOnFinalTickData : MidiData :=
  ⟨384, [], [5, 5], [(5, [⟨5, EventKind.noteOn 60 64⟩])]⟩

/-- A well-formed two-track file: a note-on at tick 0 and end-of-track at
tick 384. -/
def midiSentinelWitnessFile : MidiFile :=
  ⟨384, [[], [⟨0, EventKind.noteOn 60 64⟩, ⟨384, EventKind.endOfTrack⟩]]⟩

/-- The extractor's output on `midiSentinelWitnessFile`. -/
def midiSentinelWitnessData : MidiData :=
  ⟨384, [], [0, 384], [(0, [⟨0, EventKind.noteOn 60 64⟩])]⟩

/-! Embedding of the anchor extraction part of `ly2video/cli.py`:
`staffSpacesToPixels` and `getLeftmostGrobsByMoment`.  The regex front end
is abstracted away: the input is the list of records a successfully
parsed `ly2video:` line yields (a line failing the regex makes the source
call `bug()` before any record is produced), with the numeric conversions
(`float`, `int`, `Fraction`) already applied. -/

/-- `GLOBAL_STAFF_SIZE`. -/
def GLOBAL_STAFF_SIZE : ℚ := 20

/-- `staffSpacesToPixels(ss, dpi)`: staff spaces to points (one staff
space is `GLOBAL_STAFF_SIZE / 4` points), points to inches at 72.27
TeX points per inch, inches to pixels at `dpi`. -/
def staffSpacesToPixels (ss dpi : ℚ) : ℚ :=
  ss * (GLOBAL_STAFF_SIZE / 4) / (7227/100) * dpi

/-- One parsed `ly2video:` trace line: X extents, pitch triple, moment
and source locator (with the line number still counting from 1, as in
the trace). -/
structure GrobLine where
  left : ℚ
  right : ℚ
  octave : ℤ
  notename : ℕ
  alteration : ℚ
  moment : ℚ
  filename : String
  lineNum : ℤ
  columnNum : ℤ
deriving DecidableEq

/-- `LySrcLocation` as built by `getLeftmostGrobsByMoment` (line number
already decremented). -/
structure LySrcLocation where
  filename : String
  lineNum : ℤ
  columnNum : ℤ
  octave : ℤ
  notename : ℕ
  alteration : ℚ
deriving DecidableEq

/-- The pixel x-coordinate of a grob line:
`int(round(staffSpacesToPixels(centre, dpi))) + leftPaperMarginPx`. -/
def grobX (dpi : ℚ) (leftPaperMarginPx : ℤ) (g : GrobLine) : ℤ :=
  pyRound (staffSpacesToPixels ((g.left + g.right) / 2) dpi) + leftPaperMarginPx

/-- Dict lookup in the insertion-ordered `leftmostGrobs` association
list. -/
def lookupMoment : List (ℚ × ℤ × LySrcLocation) → ℚ → Option (ℤ × LySrcLocation)
  | [], _ => none
  | (k, v) :: rest, m => if k = m then some v else lookupMoment rest m

/-- Dict assignment `leftmostGrobs[moment] = [x, location]`: overwrite in
place, or append a new key. -/
def setMoment : List (ℚ × ℤ × LySrcLocation) → ℚ → ℤ × LySrcLocation →
    List (ℚ × ℤ × LySrcLocation)
  | [], m, v => [(m, v)]
  | (k, w) :: rest, m, v =>
      if k = m then (k, v) :: rest else (k, w) :: setMoment rest m v

/-- Processing of one trace line by `getLeftmostGrobsByMoment`: keep the
entry with the smaller pixel x (strict comparison: on a tie the earlier
line wins). -/
def processLine (dpi : ℚ) (leftPaperMarginPx : ℤ)
    (m : List (ℚ × ℤ × LySrcLocation)) (g : GrobLine) :
    List (ℚ × ℤ × LySrcLocation) :=
  let x := grobX dpi leftPaperMarginPx g
  let loc : LySrcLocation :=
    ⟨g.filename, g.lineNum - 1, g.columnNum, g.octave, g.notename, g.alteration⟩
  match lookupMoment m g.moment with
  | none => setMoment m g.moment (x, loc)
  | some (x0, _) => if x < x0 then setMoment m g.moment (x, loc) else m

/-- `getLeftmostGrobsByMoment(output, dpi, leftPaperMarginPx)`: fold the
trace lines into the dict, then list the entries by ascending moment;
an empty result is a `bug()` abort. -/
def getLeftmostGrobsByMoment (dpi : ℚ) (leftPaperMarginPx : ℤ)
    (lines : List GrobLine) : Except Err (List (ℚ × ℤ × LySrcLocation)) :=
  let m := lines.foldl (processLine dpi leftPaperMarginPx) []
  let groblist := (pySorted (m.map Prod.fst)).filterMap fun k =>
    (lookupMoment m k).map fun v => (k, v)
  if groblist = [] then
    .error (.bugE "Didn't find any notes; something must have gone wrong with the use of dump-spacetime-info.")
  else .ok groblist

/-- Two parsed trace lines at distinct moments (0 and 1).  At
`dpi = 7227/500` and zero left margin, `staffSpacesToPixels` maps a staff
space to exactly one pixel, so the x coordinates are the extent centres
1 and 5. -/
def grobWitnessLines : List GrobLine :=
  [⟨0, 2, 0, 0, 0, 0, "a.ly", 1, 0⟩, ⟨4, 6, 0, 1, 0, 1, "a.ly", 2, 0⟩]

/-- The anchor list `getLeftmostGrobsByMoment` returns on
`grobWitnessLines`. -/
def grobWitnessOut : List (ℚ × ℤ × LySrcLocation) :=
  [(0, 1, ⟨"a.ly", 0, 0, 0, 0, 0⟩), (1, 5, ⟨"a.ly", 1, 0, 0, 1, 0⟩)]

/-! Embedding of the alignment part of `ly2video/cli.py`:
`noteToken`, `LySrcLocation.getAbsolutePitch`, `getMidiPitches` and the
`getNoteIndices` two-pointer loop. -/

/-- `C_MAJOR_SCALE_STEPS`: semitones above C for the C major scale. -/
def C_MAJOR_SCALE_STEPS : List ℕ := [0, 2, 4, 5, 7, 9, 11]

/-- `NOTE_NAMES`. -/
def NOTE_NAMES : List String :=
  ["C", "C#/Db", "D", "D#/Eb", "E", "F", "F#/Gb", "G", "G#/Ab", "A", "A#/Bb", "B"]

/-- `NOTE_ALTERATIONS`. -/
def NOTE_ALTERATIONS : List String :=
  ["eses", "eseh", "es", "eh", "", "ih", "is", "isih", "isis"]

/-- Python string repetition `s * n` (empty for `n ≤ 0`). -/
def pyRepeat (s : String) (n : ℤ) : String :=
  String.join (List.replicate n.toNat s)

/-- `noteToken(octave, notename, alteration)`.  List accesses use
defaults; this matches Python exactly when `notename < 7` and
`-1 ≤ alteration ≤ 1` (outside that domain Python raises `IndexError` or
wraps around with a negative index). -/
def noteToken (octave : ℤ) (notename : ℕ) (alteration : ℚ) : String :=
  (NOTE_NAMES.getD (C_MAJOR_SCALE_STEPS.getD notename 0) "").toLower ++
    NOTE_ALTERATIONS.getD (4 + pyInt (alteration * 4)).toNat "" ++
    (if octave < -1 then pyRepeat "," (-octave - 1) else pyRepeat "\x27" (octave + 1))

/-- The pitch value computed by `LySrcLocation.getAbsolutePitch`:
`(octave + 5) * 12 + C_MAJOR_SCALE_STEPS[notename] + 2 * alteration`
(a `Fraction` in the source, hence `ℚ`). -/
def absolutePitchValue (octave : ℤ) (notename : ℕ) (alteration : ℚ) : ℚ :=
  ((octave : ℚ) + 5) * 12 + (C_MAJOR_SCALE_STEPS.getD notename 0 : ℚ) +
    2 * alteration

/-- `LySrcLocation.getAbsolutePitch()`: the pitch value and the note
token. -/
def getAbsolutePitch (octave : ℤ) (notename : ℕ) (alteration : ℚ) :
    ℚ × String :=
  (absolutePitchValue octave notename alteration,
   noteToken octave notename alteration)

/-- The note number of a NoteOn event (only NoteOn events are stored in
`notesInTicks`). -/
def eventNote (e : MidiEvent) : ℤ :=
  match e.kind with
  | .noteOn n _ => n
  | _ => 0

/-- First-occurrence deduplication: the key list of a Python dict filled
by repeated assignment. -/
def pyDedup (l : List ℤ) : List ℤ :=
  l.foldl (fun acc a => if a ∈ acc then acc else acc ++ [a]) []

/-- Dict lookup in the `notesInTicks` association list. -/
def lookupTick : List (ℤ × List MidiEvent) → ℤ → Option (List MidiEvent)
  | [], _ => none
  | (t, es) :: rest, k => if t = k then some es else lookupTick rest k

/-- The dynamic type of `grobPitchValue` at the pitch-membership test:
normally an int/`Fraction` (`ratV`); after the `'q'` branch it can be a
mido event object (`objV`, a dict value) or a string (`strV`, an element
of a stringified list).  Only a numeric value can equal an int key of
`midiPitches`. -/
inductive PyVal where
  | ratV (q : ℚ)
  | strV (s : String)
  | objV
deriving DecidableEq

/-- `grobPitchValue in midiPitches` (dict keyed by int note numbers):
a `Fraction` compares numerically, other Python types never equal an
int. -/
def pyValInPitches (v : PyVal) (keys : List ℤ) : Bool :=
  match v with
  | .ratV q => keys.any fun p => decide ((p : ℚ) = q)
  | _ => false

/-- The running `lastChord` variable: initially the empty list, after a
multi-pitch match the `midiPitches` dict (its int keys), after a
first-tick mismatch acceptance with several events the stringified note
list. -/
inductive LastChord where
  | emptyL
  | pitchDict (ps : List ℤ)
  | strList (ss : List String)
deriving DecidableEq

/-- `len(lastChord)`. -/
def lastChordLen : LastChord → ℕ
  | .emptyL => 0
  | .pitchDict ps => ps.length
  | .strList ss => ss.length

/-- The immutable inputs of the `getNoteIndices` loop. -/
structure AlignIn where
  grobs : List (ℚ × ℤ × LySrcLocation)
  midiResolution : ℚ
  notesInTicks : List (ℤ × List MidiEvent)
deriving DecidableEq

/-- The mutable state of the `getNoteIndices` loop: the grob pointer
`i`, the (trimmed) `midiTicks` list, the tick pointer `midiIndex`, the
output `alignedNoteIndices` and `lastChord`. -/
structure AlignSt where
  i : ℕ
  midiTicks : List ℤ
  midiIndex : ℕ
  aligned : List ℤ
  lastChord : LastChord
deriving DecidableEq

/-- Result of one `while` iteration of `getNoteIndices`: continue with a
new state, exit the loop (by a false condition or a `break`), or abort. -/
inductive StepRes where
  | next (s : AlignSt)
  | exit (s : AlignSt)
  | err (e : Err)
deriving DecidableEq

/-- Resolution of `grobPitchValue`, including the `'q'` repeated-chord
branch: with fewer than 2 saved chord notes this is a `bug()`; with a
pitch-keyed dict saved, `lastChord[0]` raises `KeyError` unless pitch 0
is a key, in which case the looked-up value is the stored *event object*
(`objV`); with a stringified list saved, `lastChord[0]` is its first
string. -/
def resolveGrobPitch (tok : String) (pv : ℚ) (lastChord : LastChord) :
    Except Err PyVal :=
  if tok = "q" then
    if lastChordLen lastChord < 2 then
      .error (.bugE "Encountered a 'q' repeated chord token at %s but didn't have a last chord saved.")
    else
      match lastChord with
      | .pitchDict ps => if 0 ∈ ps then .ok PyVal.objV else .error .keyError
      | .strList ss => .ok (PyVal.strV (ss.headD ""))
      | .emptyL => .error .keyError
  else .ok (PyVal.ratV pv)

/-- One iteration of the `while i < len(leftmostGrobsByMoment)` loop of
`getNoteIndices`, faithful to the source's branch order: loop-exit
checks, the final-tick path for a tick absent from `notesInTicks`, the
case-2 tick skip (`midiTick < grobTick`), `i += 1`, the case-3 grob skip
(`grobTick < midiTick`), then the pitch comparison with the
first-MIDI-event acceptance (`midiIndex == 0`) and otherwise the
"Skipping grob and tick" drop; on a match or an acceptance the sync
point is emitted and `lastChord` updated. -/
def alignStep (inp : AlignIn) (st : AlignSt) : StepRes :=
  match inp.grobs.get? st.i with
  | none => .exit st
  | some (moment, index, loc) =>
    if st.midiIndex = st.midiTicks.length then .exit st
    else
      match st.midiTicks.get? st.midiIndex with
      | none => .err .indexError
      | some midiTick =>
        let grobTick := pyRound (moment * inp.midiResolution * 4)
        match resolveGrobPitch (noteToken loc.octave loc.notename loc.alteration)
            (absolutePitchValue loc.octave loc.notename loc.alteration)
            st.lastChord with
        | .error e => .err e
        | .ok grobPitchValue =>
          match lookupTick inp.notesInTicks midiTick with
          | none =>
              if st.midiIndex + 1 < st.midiTicks.length then
                .err (.bugE "No notes in tick %d (%d/%d)")
              else .next ⟨st.i, st.midiTicks, st.midiIndex + 1, st.aligned,
                st.lastChord⟩
          | some events =>
            let midiPitches := pyDedup (events.map eventNote)
            if midiTick < grobTick then
              .next ⟨st.i, st.midiTicks.eraseIdx st.midiIndex, st.midiIndex,
                st.aligned, st.lastChord⟩
            else if grobTick < midiTick then
              .next ⟨st.i + 1, st.midiTicks, st.midiIndex, st.aligned,
                st.lastChord⟩
            else if ¬ pyValInPitches grobPitchValue midiPitches then
              if st.midiIndex = 0 then
                .next ⟨st.i + 1, st.midiTicks, st.midiIndex + 1,
                  st.aligned ++ [index],
                  if 1 < events.length then
                    .strList (events.map fun e => toString (eventNote e))
                  else .emptyL⟩
              else
                .next ⟨st.i + 1, st.midiTicks.eraseIdx st.midiIndex,
                  st.midiIndex, st.aligned, st.lastChord⟩
            else
              .next ⟨st.i + 1, st.midiTicks, st.midiIndex + 1,
                st.aligned ++ [index],
                if 1 < midiPitches.length then .pitchDict midiPitches
                else .emptyL⟩

/-- Termination measure of the loop: every `next` strictly shrinks it. -/
def alignMeasure (inp : AlignIn) (st : AlignSt) : ℕ :=
  (inp.grobs.length - st.i) + 2 * st.midiTicks.length +
    (st.midiTicks.length - st.midiIndex)

/-- The code after the loop: the final report, and the `bug()` abort when
fewer than 2 sync points were found; otherwise the aligned indices are
returned (paired here with the trimmed `midiTicks`, which the source
mutates in place as a side effect). -/
def postLoop (st : AlignSt) : Except Err (List ℤ × List ℤ) :=
  if st.aligned.length < 2 then
    .error (.bugE "Not enough synchronization points found!  Aborting.")
  else .ok (st.aligned, st.midiTicks)

/-- The `getNoteIndices` loop, iterated to completion. -/
def alignLoop (inp : AlignIn) (st : AlignSt) : Except Err (List ℤ × List ℤ) :=
  match h : alignStep inp st with
  | .err e => .error e
  | .exit s => postLoop s
  | .next s' => alignLoop inp s'
termination_by alignMeasure inp st
decreasing_by
  simp only [alignStep] at h
  split at h
  · exact absurd h (by simp)
  · rename_i moment index loc hgrob
    have hig : st.i < inp.grobs.length := by
      rcases List.get?_eq_some.mp hgrob with ⟨hl, _⟩
      exact hl
    split at h
    · exact absurd h (by simp)
    · split at h
      · exact absurd h (by simp)
      · rename_i midiTick hget
        have hlt : st.midiIndex < st.midiTicks.length := by
          rcases List.get?_eq_some.mp hget with ⟨hl, _⟩
          exact hl
        have herase :
            (st.midiTicks.eraseIdx st.midiIndex).length =
              st.midiTicks.length - 1 := by
          rw [List.length_eraseIdx]
          simp [hlt]
        split at h
        · exact absurd h (by simp)
        · split at h
          · split at h
            · exact absurd h (by simp)
            · cases h
              simp only [alignMeasure]
              omega
          · split at h
            · cases h
              simp only [alignMeasure]
              rw [herase]
              omega
            · split at h
              · cases h
                simp only [alignMeasure]
                omega
              · split at h
                · split at h
                  · cases h
                    simp only [alignMeasure]
                    omega
                  · cases h
                    simp only [alignMeasure]
                    rw [herase]
                    omega
                · cases h
                  simp only [alignMeasure]
                  omega

/-- `getNoteIndices(leftmostGrobsByMoment, midiResolution, midiTicks,
notesInTicks, pitchBends)`: run the loop from the initial state.  The
`pitchBends` parameter is omitted (see `notesTrackLoop`).  Returns the
aligned indices together with the trimmed tick list. -/
def getNoteIndices (grobs : List (ℚ × ℤ × LySrcLocation))
    (midiResolution : ℚ) (midiTicks : List ℤ)
    (notesInTicks : List (ℤ × List MidiEvent)) :
    Except Err (List ℤ × List ℤ) :=
  alignLoop ⟨grobs, midiResolution, notesInTicks⟩ ⟨0, midiTicks, 0, [], .emptyL⟩

/-- Reachability between loop states: zero or more `next` steps. -/
def AlignReaches (inp : AlignIn) : AlignSt → AlignSt → Prop :=
  Relation.ReflTransGen (fun s t => alignStep inp s = StepRes.next t)

/-- The invariant connecting "no sync point emitted yet" with
`midiIndex == 0`: while nothing has been emitted, `midiIndex` can only be
0 (or the list length, momentarily, on the way out of the loop through
the final-tick path); conversely `midiIndex = 0` means nothing was
emitted. -/
def AlignInv (st : AlignSt) : Prop :=
  (st.aligned = [] → st.midiIndex = 0 ∨ st.midiIndex = st.midiTicks.length) ∧
  (st.midiIndex = 0 → st.aligned = [])

/-- A source location whose absolute pitch is 0 (octave -5, step c) and
whose token is `"c,,,,"`. -/
def locC : LySrcLocation := ⟨"a.ly", 0, 0, -5, 0, 0⟩

/-- Two anchors: one at moment 0 (tick 0) and one at moment `(n+1)/4`
(tick `n+1`), both of pitch 0. -/
def skipGrobs (n : ℕ) : List (ℚ × ℤ × LySrcLocation) :=
  [(0, 10, locC), (((n : ℚ) + 1) / 4, 20, locC)]

/-- Ticks 0 .. n+1, all carrying notes, plus the sentinel tick n+2: at
resolution 1, ticks 1 .. n are n consecutive ticks with no matching
anchor. -/
def skipTicks (n : ℕ) : List ℤ :=
  ((List.range' 0 (n + 2)).map fun t : ℕ => (t : ℤ)) ++ [(n : ℤ) + 2]

/-- One pitch-0 note-on per tick 0 .. n+1. -/
def skipNotes (n : ℕ) : List (ℤ × List MidiEvent) :=
  (List.range' 0 (n + 2)).map fun t : ℕ =>
    ((t : ℤ), [⟨(t : ℤ), EventKind.noteOn 0 64⟩])

/-- The skip-family input with resolution 1. -/
def skipInp (n : ℕ) : AlignIn := ⟨skipGrobs n, 1, skipNotes n⟩

/-- The intermediate state of the run on the skip family during the
consecutive-skip phase: the first sync point is emitted, ticks
1 .. k-1 have been dropped, and the tick pointer sits on tick k. -/
def skipMid (n k : ℕ) : AlignSt :=
  ⟨1, 0 :: ((List.range' k (n + 2 - k)).map fun t : ℕ => (t : ℤ)) ++ [(n : ℤ) + 2],
    1, [10], .emptyL⟩

/-- An alignment input with a single anchor of pitch 0 over a tick of
pitch 7: the very first comparison is a coinciding-time pitch mismatch. -/
def mismatchInp : AlignIn :=
  ⟨[(0, 10, locC)], 384, [(0, [⟨0, EventKind.noteOn 7 64⟩])]⟩


/-- Invariant of the `leftmostGrobs` dict with respect to the trace lines
already processed: keys are distinct, every entry comes from a processed
line and carries the minimal pixel x among the processed lines sharing
its moment, and every processed line's moment has an entry. -/
def Represents (dpi : ℚ) (margin : ℤ) (seen : List GrobLine)
    (m : List (ℚ × ℤ × LySrcLocation)) : Prop :=
  (m.map Prod.fst).Nodup ∧
  (∀ e ∈ m, ∃ g ∈ seen, g.moment = e.1 ∧ grobX dpi margin g = e.2.1) ∧
  (∀ e ∈ m, ∀ g ∈ seen, g.moment = e.1 → e.2.1 ≤ grobX dpi margin g) ∧
  (∀ g ∈ seen, ∃ e ∈ m, e.1 = g.moment)

end Cli

/-! ## General lemmas about the Python rounding model -/

theorem pyRound_abs_le (q : ℚ) : |(pyRound q : ℚ) - q| ≤ 1/2 := by
  have h0 : (⌊q⌋ : ℚ) ≤ q := Int.floor_le q
  have h1 : q < ⌊q⌋ + 1 := Int.lt_floor_add_one q
  rw [pyRound]
  split_ifs <;> rw [abs_le] <;> constructor <;> push_cast <;> linarith

namespace Tok

theorem endArgument_ne_nil : ∀ s : List ParserInst, s ≠ [] → endArgument s ≠ [] := by
  intro s
  induction s with
  | nil => intro h; exact absurd rfl h
  | cons p rest ih =>
    intro _
    rw [endArgument]
    split_ifs with h1 h2 h3
    · simp
    · simp
    · exact ih h1.1
    · simp

theorem decPopLoop_ne_nil : ∀ s : List ParserInst, s ≠ [] → decPopLoop s ≠ [] := by
  intro s
  induction s with
  | nil => intro h; exact absurd rfl h
  | cons p rest ih =>
    intro _
    rw [decPopLoop]
    split_ifs with h1
    · exact ih h1.2
    · simp

theorem applyOp_ne_nil (s : List ParserInst) (hs : s ≠ []) (op : TokOp) :
    applyOp s op ≠ [] := by
  cases op with
  | enter cls argc => simp [applyOp, enter]
  | leave =>
    simp only [applyOp, leave]
    split_ifs with h
    · cases s with
      | nil => exact absurd rfl hs
      | cons p rest =>
        cases rest with
        | nil => simp at h
        | cons q r => simp
    · exact hs
  | endArgument => exact endArgument_ne_nil s hs
  | inc =>
    cases s with
    | nil => exact absurd rfl hs
    | cons p rest => simp [applyOp, inc]
  | dec =>
    simp only [applyOp, dec]
    have h := decPopLoop_ne_nil s hs
    cases hd : decPopLoop s with
    | nil => exact absurd hd h
    | cons p rest =>
      dsimp only
      split_ifs with h1
      · exact endArgument_ne_nil _ (by simp)
      · simp

theorem applyOps_ne_nil (ops : List TokOp) :
    ∀ s : List ParserInst, s ≠ [] → applyOps ops s ≠ [] := by
  induction ops with
  | nil => intro s hs; exact hs
  | cons op rest ih =>
    intro s hs
    rw [applyOps, List.foldl_cons]
    exact ih _ (applyOp_ne_nil s hs op)

end Tok

namespace Cli

theorem absTrack_getLast? :
    ∀ (t0 : ℤ) (l : List MidiEvent) (e : MidiEvent), l.getLast? = some e →
      ∃ e', (absTrack t0 l).getLast? = some e' ∧ e'.kind = e.kind ∧
        e'.time = t0 + (l.map MidiEvent.time).sum := by
  intro t0 l
  induction l generalizing t0 with
  | nil => intro e he; simp at he
  | cons a rest ih =>
    intro e he
    cases rest with
    | nil =>
      simp only [List.getLast?_singleton, Option.some.injEq] at he
      subst he
      exact ⟨⟨t0 + a.time, a.kind⟩, by simp [absTrack], rfl, by simp⟩
    | cons b r =>
      rw [List.getLast?_cons_cons] at he
      obtain ⟨e', he', hk, ht⟩ := ih (t0 + a.time) e he
      refine ⟨e', ?_, hk, ?_⟩
      · rw [absTrack]
        cases hb : absTrack (t0 + a.time) (b :: r) with
        | nil => simp [absTrack] at hb
        | cons x xs => rw [List.getLast?_cons_cons, ← hb]; exact he'
      · rw [ht]; simp; ring

theorem insertSorted_perm {α : Type} [LinearOrder α] (x : α) :
    ∀ l : List α, List.Perm (insertSorted x l) (x :: l) := by
  intro l
  induction l with
  | nil => exact List.Perm.refl _
  | cons y rest ih =>
    rw [insertSorted]
    split_ifs with h
    · exact List.Perm.refl _
    · exact (ih.cons y).trans (List.Perm.swap x y rest)

theorem insertSorted_sorted {α : Type} [LinearOrder α] (x : α) :
    ∀ l : List α, l.Pairwise (· ≤ ·) → (insertSorted x l).Pairwise (· ≤ ·) := by
  intro l
  induction l with
  | nil => intro _; simp [insertSorted]
  | cons y rest ih =>
    intro hs
    rw [List.pairwise_cons] at hs
    rw [insertSorted]
    split_ifs with h
    · rw [List.pairwise_cons]
      refine ⟨?_, List.pairwise_cons.mpr hs⟩
      intro z hz
      rcases List.mem_cons.mp hz with rfl | hz
      · exact h
      · exact h.trans (hs.1 z hz)
    · rw [List.pairwise_cons]
      refine ⟨?_, ih hs.2⟩
      intro z hz
      have hz' := (insertSorted_perm x rest).mem_iff.mp hz
      rcases List.mem_cons.mp hz' with rfl | hz'
      · exact le_of_not_le h
      · exact hs.1 z hz'

theorem pySorted_perm {α : Type} [LinearOrder α] :
    ∀ l : List α, List.Perm (pySorted l) l := by
  intro l
  induction l with
  | nil => exact List.Perm.refl _
  | cons a rest ih =>
    show List.Perm (insertSorted a (pySorted rest)) (a :: rest)
    exact (insertSorted_perm a (pySorted rest)).trans (ih.cons a)

theorem pySorted_sorted {α : Type} [LinearOrder α] :
    ∀ l : List α, (pySorted l).Pairwise (· ≤ ·) := by
  intro l
  induction l with
  | nil => simp [pySorted]
  | cons a rest ih => exact insertSorted_sorted a (pySorted rest) ih

theorem lookupMoment_mem :
    ∀ (m : List (ℚ × ℤ × LySrcLocation)) (k : ℚ) (v : ℤ × LySrcLocation),
      lookupMoment m k = some v → (k, v) ∈ m := by
  intro m
  induction m with
  | nil => intro k v h; simp [lookupMoment] at h
  | cons e rest ih =>
    intro k v h
    obtain ⟨k', w⟩ := e
    rw [lookupMoment] at h
    split_ifs at h with hk
    · cases h; subst hk; exact List.mem_cons_self _ _
    · exact List.mem_cons_of_mem _ (ih k v h)

theorem mem_keys_lookup :
    ∀ (m : List (ℚ × ℤ × LySrcLocation)) (k : ℚ),
      k ∈ m.map Prod.fst → ∃ v, lookupMoment m k = some v := by
  intro m
  induction m with
  | nil => intro k h; simp at h
  | cons e rest ih =>
    intro k h
    obtain ⟨k', w⟩ := e
    rw [lookupMoment]
    split_ifs with hk
    · exact ⟨w, rfl⟩
    · refine ih k ?_
      simp only [List.map_cons, List.mem_cons] at h
      rcases h with h | h
      · exact absurd h.symm hk
      · exact h

theorem mem_lookupMoment :
    ∀ (m : List (ℚ × ℤ × LySrcLocation)), (m.map Prod.fst).Nodup →
      ∀ (k : ℚ) (v : ℤ × LySrcLocation), (k, v) ∈ m →
        lookupMoment m k = some v := by
  intro m
  induction m with
  | nil => intro _ k v h; simp at h
  | cons e rest ih =>
    intro hnd k v h
    obtain ⟨k', w⟩ := e
    simp only [List.map_cons, List.nodup_cons] at hnd
    rw [lookupMoment]
    rcases List.mem_cons.mp h with heq | hmem
    · cases heq
      rw [if_pos rfl]
    · split_ifs with hk
      · exfalso
        subst hk
        exact hnd.1 (List.mem_map_of_mem Prod.fst hmem)
      · exact ih hnd.2 k v hmem

theorem lookupMoment_none :
    ∀ (m : List (ℚ × ℤ × LySrcLocation)) (k : ℚ),
      lookupMoment m k = none → k ∉ m.map Prod.fst := by
  intro m
  induction m with
  | nil => intro k _ h; simp at h
  | cons e rest ih =>
    intro k h hmem
    obtain ⟨k', w⟩ := e
    rw [lookupMoment] at h
    split_ifs at h with hk
    simp only [List.map_cons, List.mem_cons] at hmem
    rcases hmem with hmem | hmem
    · exact hk hmem.symm
    · exact ih k h hmem

theorem setMoment_self :
    ∀ (m : List (ℚ × ℤ × LySrcLocation)) (k : ℚ) (v : ℤ × LySrcLocation),
      (k, v) ∈ setMoment m k v := by
  intro m
  induction m with
  | nil => intro k v; simp [setMoment]
  | cons e rest ih =>
    intro k v
    obtain ⟨k', w⟩ := e
    rw [setMoment]
    split_ifs with hk
    · subst hk; exact List.mem_cons_self _ _
    · exact List.mem_cons_of_mem _ (ih k v)

theorem setMoment_mem_of_ne :
    ∀ (m : List (ℚ × ℤ × LySrcLocation)) (k : ℚ) (v : ℤ × LySrcLocation)
      (e : ℚ × ℤ × LySrcLocation), e ∈ m → e.1 ≠ k → e ∈ setMoment m k v := by
  intro m
  induction m with
  | nil => intro k v e h; simp at h
  | cons f rest ih =>
    intro k v e he hne
    obtain ⟨k', w⟩ := f
    rw [setMoment]
    rcases List.mem_cons.mp he with heq | hmem
    · subst heq
      split_ifs with hk
      · exact absurd hk hne
      · exact List.mem_cons_self _ _
    · split_ifs with hk
      · exact List.mem_cons_of_mem _ hmem
      · exact List.mem_cons_of_mem _ (ih k v e hmem hne)

theorem setMoment_mem_nodup :
    ∀ (m : List (ℚ × ℤ × LySrcLocation)), (m.map Prod.fst).Nodup →
      ∀ (k : ℚ) (v : ℤ × LySrcLocation) (e : ℚ × ℤ × LySrcLocation),
        e ∈ setMoment m k v → e = (k, v) ∨ (e ∈ m ∧ e.1 ≠ k) := by
  intro m
  induction m with
  | nil =>
    intro _ k v e h
    simp only [setMoment, List.mem_singleton] at h
    exact Or.inl h
  | cons f rest ih =>
    intro hnd k v e h
    obtain ⟨k', w⟩ := f
    simp only [List.map_cons, List.nodup_cons] at hnd
    rw [setMoment] at h
    split_ifs at h with hk
    · rcases List.mem_cons.mp h with heq | hmem
      · subst hk; exact Or.inl heq
      · subst hk
        refine Or.inr ⟨List.mem_cons_of_mem _ hmem, fun he => ?_⟩
        exact hnd.1 (he ▸ List.mem_map_of_mem Prod.fst hmem)
    · rcases List.mem_cons.mp h with heq | hmem
      · subst heq
        exact Or.inr ⟨List.mem_cons_self _ _, fun he => hk he⟩
      · rcases ih hnd.2 k v e hmem with h1 | ⟨h1, h2⟩
        · exact Or.inl h1
        · exact Or.inr ⟨List.mem_cons_of_mem _ h1, h2⟩

theorem setMoment_keys_mem :
    ∀ (m : List (ℚ × ℤ × LySrcLocation)) (k : ℚ) (v : ℤ × LySrcLocation),
      k ∈ m.map Prod.fst →
      (setMoment m k v).map Prod.fst = m.map Prod.fst := by
  intro m
  induction m with
  | nil => intro k v h; simp at h
  | cons f rest ih =>
    intro k v h
    obtain ⟨k', w⟩ := f
    rw [setMoment]
    split_ifs with hk
    · simp
    · simp only [List.map_cons]
      have h' : k ∈ rest.map Prod.fst := by
        simp only [List.map_cons, List.mem_cons] at h
        rcases h with h | h
        · exact absurd h.symm hk
        · exact h
      rw [ih k v h']

theorem setMoment_keys_new :
    ∀ (m : List (ℚ × ℤ × LySrcLocation)) (k : ℚ) (v : ℤ × LySrcLocation),
      k ∉ m.map Prod.fst → setMoment m k v = m ++ [(k, v)] := by
  intro m
  induction m with
  | nil => intro k v _; simp [setMoment]
  | cons f rest ih =>
    intro k v h
    obtain ⟨k', w⟩ := f
    simp only [List.map_cons, List.mem_cons] at h
    push_neg at h
    rw [setMoment, if_neg (fun hk => h.1 hk.symm)]
    simp [ih k v h.2]

theorem alignLoop_err (inp : AlignIn) (st : AlignSt) (e : Err)
    (h : alignStep inp st = .err e) : alignLoop inp st = .error e := by
  rw [alignLoop]
  split
  · rename_i e' heq
    rw [h] at heq
    cases heq
    rfl
  · rename_i s heq
    rw [h] at heq
    cases heq
  · rename_i s' heq
    rw [h] at heq
    cases heq

theorem alignLoop_exit (inp : AlignIn) (st : AlignSt) (s : AlignSt)
    (h : alignStep inp st = .exit s) : alignLoop inp st = postLoop s := by
  rw [alignLoop]
  split
  · rename_i e' heq
    rw [h] at heq
    cases heq
  · rename_i s2 heq
    rw [h] at heq
    cases heq
    rfl
  · rename_i s' heq
    rw [h] at heq
    cases heq

theorem alignLoop_next (inp : AlignIn) (st : AlignSt) (s' : AlignSt)
    (h : alignStep inp st = .next s') : alignLoop inp st = alignLoop inp s' := by
  rw [alignLoop]
  split
  · rename_i e' heq
    rw [h] at heq
    cases heq
  · rename_i s2 heq
    rw [h] at heq
    cases heq
  · rename_i s2 heq
    rw [h] at heq
    cases heq
    rfl

theorem alignLoop_ok_len (inp : AlignIn) :
    ∀ st l t, alignLoop inp st = .ok (l, t) → 2 ≤ l.length := by
  refine alignLoop.induct inp
    (fun st => ∀ l t, alignLoop inp st = .ok (l, t) → 2 ≤ l.length) ?_ ?_ ?_
  · intro st e h l t hok
    rw [alignLoop_err inp st e h] at hok
    cases hok
  · intro st s h l t hok
    rw [alignLoop_exit inp st s h] at hok
    rw [postLoop] at hok
    split_ifs at hok with hfew
    simp only [Except.ok.injEq, Prod.mk.injEq] at hok
    rw [← hok.1]
    omega
  · intro st s' h ih l t hok
    rw [alignLoop_next inp st s' h] at hok
    exact ih l t hok

theorem represents_step (dpi : ℚ) (margin : ℤ) (seen : List GrobLine)
    (m : List (ℚ × ℤ × LySrcLocation)) (h : Represents dpi margin seen m)
    (g : GrobLine) :
    Represents dpi margin (seen ++ [g]) (processLine dpi margin m g) := by
  obtain ⟨hnd, hfrom, hmin, hcov⟩ := h
  rw [processLine]
  cases hlk : lookupMoment m g.moment with
  | none =>
    have hnotin : g.moment ∉ m.map Prod.fst := lookupMoment_none m g.moment hlk
    dsimp only
    rw [setMoment_keys_new m g.moment _ hnotin]
    refine ⟨?_, ?_, ?_, ?_⟩
    · rw [List.map_append]
      refine List.Nodup.append hnd (List.nodup_singleton _) ?_
      intro a ha hb
      simp only [List.map_cons, List.map_nil, List.mem_singleton] at hb
      subst hb
      exact hnotin ha
    · intro e he
      rcases List.mem_append.mp he with he | he
      · obtain ⟨g', hg', hm', hx'⟩ := hfrom e he
        exact ⟨g', List.mem_append_left _ hg', hm', hx'⟩
      · simp only [List.mem_singleton] at he
        subst he
        exact ⟨g, List.mem_append_right _ (List.mem_singleton_self g), rfl, rfl⟩
    · intro e he g' hg' hmom
      rcases List.mem_append.mp he with he | he
      · rcases List.mem_append.mp hg' with hg' | hg'
        · exact hmin e he g' hg' hmom
        · simp only [List.mem_singleton] at hg'
          exfalso
          apply hnotin
          have h1 : g.moment = e.1 := by rw [← hg']; exact hmom
          rw [h1]
          exact List.mem_map_of_mem Prod.fst he
      · simp only [List.mem_singleton] at he
        subst he
        rcases List.mem_append.mp hg' with hg' | hg'
        · exfalso
          obtain ⟨e', he', hk'⟩ := hcov g' hg'
          apply hnotin
          have : e'.1 = g.moment := by rw [hk', hmom]
          exact this ▸ List.mem_map_of_mem Prod.fst he'
        · simp only [List.mem_singleton] at hg'
          rw [hg']
    · intro g' hg'
      rcases List.mem_append.mp hg' with hg' | hg'
      · obtain ⟨e, he, hk⟩ := hcov g' hg'
        exact ⟨e, List.mem_append_left _ he, hk⟩
      · simp only [List.mem_singleton] at hg'
        rw [hg']
        exact ⟨(g.moment, grobX dpi margin g,
          ⟨g.filename, g.lineNum - 1, g.columnNum, g.octave, g.notename,
            g.alteration⟩),
          List.mem_append_right _ (List.mem_singleton_self _), rfl⟩
  | some v =>
    obtain ⟨x0, loc0⟩ := v
    have hv : (g.moment, x0, loc0) ∈ m := lookupMoment_mem m g.moment _ hlk
    have hkin : g.moment ∈ m.map Prod.fst := by
      have := List.mem_map_of_mem Prod.fst hv
      simpa using this
    dsimp only
    split_ifs with hcmp
    · have hkeys := setMoment_keys_mem m g.moment
        (grobX dpi margin g,
          ⟨g.filename, g.lineNum - 1, g.columnNum, g.octave, g.notename,
            g.alteration⟩) hkin
      refine ⟨by rw [hkeys]; exact hnd, ?_, ?_, ?_⟩
      · intro e he
        rcases setMoment_mem_nodup m hnd _ _ e he with rfl | ⟨hm', _⟩
        · exact ⟨g, List.mem_append_right _ (List.mem_singleton_self g), rfl, rfl⟩
        · obtain ⟨g', hg', hm2, hx2⟩ := hfrom e hm'
          exact ⟨g', List.mem_append_left _ hg', hm2, hx2⟩
      · intro e he g' hg' hmom
        rcases setMoment_mem_nodup m hnd _ _ e he with rfl | ⟨hm', hne⟩
        · rcases List.mem_append.mp hg' with hg' | hg'
          · have h0 := hmin (g.moment, x0, loc0) hv g' hg' hmom
            exact le_trans (le_of_lt hcmp) h0
          · simp only [List.mem_singleton] at hg'
            rw [hg']
        · rcases List.mem_append.mp hg' with hg' | hg'
          · exact hmin e hm' g' hg' hmom
          · simp only [List.mem_singleton] at hg'
            rw [hg'] at hmom
            exact absurd hmom.symm hne
      · intro g' hg'
        rcases List.mem_append.mp hg' with hg' | hg'
        · obtain ⟨e, he, hk⟩ := hcov g' hg'
          by_cases hek : e.1 = g.moment
          · refine ⟨_, setMoment_self m g.moment _, ?_⟩
            rw [← hek, hk]
          · exact ⟨e, setMoment_mem_of_ne m g.moment _ e he hek, hk⟩
        · simp only [List.mem_singleton] at hg'
          rw [hg']
          exact ⟨_, setMoment_self m g.moment _, rfl⟩
    · refine ⟨hnd, ?_, ?_, ?_⟩
      · intro e he
        obtain ⟨g', hg', hm2, hx2⟩ := hfrom e he
        exact ⟨g', List.mem_append_left _ hg', hm2, hx2⟩
      · intro e he g' hg' hmom
        rcases List.mem_append.mp hg' with hg' | hg'
        · exact hmin e he g' hg' hmom
        · simp only [List.mem_singleton] at hg'
          rw [hg'] at hmom
          have hl := mem_lookupMoment m hnd e.1 e.2 (by simpa using he)
          rw [← hmom, hlk] at hl
          have he2 : e.2 = (x0, loc0) := by
            have := Option.some.inj hl
            exact this.symm
          rw [hg', he2]
          exact le_of_not_lt hcmp
      · intro g' hg'
        rcases List.mem_append.mp hg' with hg' | hg'
        · obtain ⟨e, he, hk⟩ := hcov g' hg'
          exact ⟨e, he, hk⟩
        · simp only [List.mem_singleton] at hg'
          rw [hg']
          exact ⟨(g.moment, x0, loc0), hv, rfl⟩

theorem represents_foldl (dpi : ℚ) (margin : ℤ) :
    ∀ (lines seen : List GrobLine) (m : List (ℚ × ℤ × LySrcLocation)),
      Represents dpi margin seen m →
      Represents dpi margin (seen ++ lines)
        (lines.foldl (processLine dpi margin) m) := by
  intro lines
  induction lines with
  | nil => intro seen m h; simpa using h
  | cons g rest ih =>
    intro seen m h
    rw [List.foldl_cons]
    have h' := represents_step dpi margin seen m h g
    have := ih (seen ++ [g]) (processLine dpi margin m g) h'
    rwa [List.append_assoc, List.singleton_append] at this

theorem filterMap_lookup_keys (m : List (ℚ × ℤ × LySrcLocation)) :
    ∀ ks : List ℚ, (∀ k ∈ ks, ∃ v, lookupMoment m k = some v) →
      ((ks.filterMap fun k => (lookupMoment m k).map fun v => (k, v)).map
        Prod.fst) = ks := by
  intro ks
  induction ks with
  | nil => intro _; simp
  | cons k rest ih =>
    intro hall
    obtain ⟨v, hv⟩ := hall k (by simp)
    have hrest := ih (fun k' hk' => hall k' (List.mem_cons_of_mem _ hk'))
    simp only [List.filterMap_cons, hv, Option.map_some', List.map_cons, hrest]

theorem endOfTrackFold_max :
    ∀ (ts : List (List MidiEvent)) (acc : ℤ),
      (∀ t ∈ ts, ∃ e, t.getLast? = some e ∧ e.kind = EventKind.endOfTrack) →
      ∃ s, endOfTrackFold ts acc = .ok s ∧ acc ≤ s ∧
        (∀ t ∈ ts, ∀ e, t.getLast? = some e → e.time ≤ s) ∧
        (s = acc ∨ ∃ t ∈ ts, ∃ e, t.getLast? = some e ∧ e.time = s) := by
  intro ts
  induction ts with
  | nil => intro acc _; exact ⟨acc, rfl, le_refl acc, by simp, Or.inl rfl⟩
  | cons t ts ih =>
    intro acc hall
    obtain ⟨e, he, hk⟩ := hall t (by simp)
    obtain ⟨s, hs, hacc, hbound, hmem⟩ :=
      ih (if acc < e.time then e.time else acc)
        (fun u hu => hall u (List.mem_cons_of_mem _ hu))
    refine ⟨s, ?_, ?_, ?_, ?_⟩
    · rw [endOfTrackFold, he]
      dsimp only
      simpa [hk] using hs
    · split_ifs at hacc with h <;> omega
    · intro u hu e' he'
      rcases List.mem_cons.mp hu with h | h
      · subst h
        rw [he] at he'
        cases he'
        split_ifs at hacc with h <;> omega
      · exact hbound u h e' he'
    · rcases hmem with h | ⟨u, hu, e', he', ht⟩
      · by_cases hlt : acc < e.time
        · rw [if_pos hlt] at h
          exact Or.inr ⟨t, by simp, e, he, h.symm⟩
        · rw [if_neg hlt] at h; exact Or.inl h
      · exact Or.inr ⟨u, List.mem_cons_of_mem _ hu, e', he', ht⟩

end Cli

namespace Synchro

/-- `ticksToSecs` at one fixed tempo is additive in the tick interval. -/
theorem ticksToSecs_add (res c a m b : ℚ) :
    ticksToSecs res c a m + ticksToSecs res c m b = ticksToSecs res c a b := by
  unfold ticksToSecs
  ring

/-- When every tempo entry still to be scanned carries the same bpm `c` and
the current tempo is `c`, the `secsElapsedForTempoChanges` loop computes
plain `ticksToSecs` from `lastTick` to `endTick`, and leaves the current
tempo at `c`. -/
theorem secsLoop_const (res a b c : ℚ) :
    ∀ (l : List (ℚ × ℚ)), (∀ p ∈ l, p.2 = c) → ∀ lastTick : ℚ,
      (secsLoop res a b l c lastTick).1 = ticksToSecs res c lastTick b ∧
      (secsLoop res a b l c lastTick).2.1 = c := by
  intro l
  induction l with
  | nil => intro _ lastTick; simp [secsLoop]
  | cons hd tl ih =>
    intro hall lastTick
    obtain ⟨tt, tp⟩ := hd
    have htp : tp = c := hall (tt, tp) (by simp)
    have htl : ∀ p ∈ tl, p.2 = c := fun p hp => hall p (List.mem_cons_of_mem _ hp)
    rw [secsLoop, htp]
    split_ifs with h1 h2
    · exact ⟨rfl, rfl⟩
    · exact ⟨(ih htl lastTick).1, (ih htl lastTick).2⟩
    · refine ⟨?_, (ih htl tt).2⟩
      show ticksToSecs res c lastTick tt + (secsLoop res a b tl c tt).1 =
        ticksToSecs res c lastTick b
      rw [(ih htl tt).1, ticksToSecs_add]

/-- One `nbFramesToNextNote` call leaves the frame counter within half a
frame of the ideal cumulative time times fps. -/
theorem nbFramesToNextNote_halfFrame (fps : ℚ) (hfps : fps ≠ 0)
    (st : FrameState) (d : ℚ) :
    |(((nbFramesToNextNote fps st d).2.wroteFrames : ℚ)) -
      (nbFramesToNextNote fps st d).2.secs * fps| ≤ 1/2 := by
  unfold nbFramesToNextNote
  have hmul : (st.secs + d - (st.wroteFrames : ℚ) / fps) * fps =
      (st.secs + d) * fps - st.wroteFrames := by
    field_simp
  simp only [hmul]
  have h := pyRound_abs_le ((st.secs + d) * fps - (st.wroteFrames : ℚ))
  rw [abs_le] at h ⊢
  push_cast
  constructor <;> linarith [h.1, h.2]

/-- Folding `nbFramesToNextNote` over any prefix keeps the frame counter
within one frame of the ideal cumulative seconds times fps. -/
theorem runFrames_take_drift (fps : ℚ) (hfps : fps ≠ 0) :
    ∀ (l : List ℚ) (st : FrameState),
      |((st.wroteFrames : ℚ)) - st.secs * fps| ≤ 1 → ∀ n : ℕ,
      |(((l.take n).foldl (fun s d => (nbFramesToNextNote fps s d).2) st).wroteFrames : ℚ) -
        ((l.take n).foldl (fun s d => (nbFramesToNextNote fps s d).2) st).secs * fps| ≤ 1 := by
  intro l
  induction l with
  | nil => intro st hst n; simpa using hst
  | cons d ds ih =>
    intro st hst n
    cases n with
    | zero => simpa using hst
    | succ n =>
      rw [List.take_succ_cons, List.foldl_cons]
      refine ih _ ?_ n
      have h := nbFramesToNextNote_halfFrame fps hfps st d
      calc |(((nbFramesToNextNote fps st d).2.wroteFrames : ℚ)) -
          (nbFramesToNextNote fps st d).2.secs * fps| ≤ 1/2 := h
        _ ≤ 1 := by norm_num

/-! ## Claim theorems about the frame scheduler -/

/-- C1, counterexample.  With `fps = 2`, after a first segment of `5/8` s
(one frame emitted), a second segment of `5/8` s makes
`nbFramesToNextNote` return `2` frames, whereas "round(cumulative ideal
elapsed seconds × fps) minus the frames already emitted" is
`round(5/4 × 2) - 1 = 1`: Python's half-to-even rounding is applied to
`(targetSecs - wroteFrames/fps) * fps`, which differs from
`round(targetSecs * fps) - wroteFrames` at exact half-frame targets with
an odd emitted count. -/
theorem nbFramesToNextNote_round_formula_cex :
    (nbFramesToNextNote 2 cexFrameState1 (5/8)).1 = 2 ∧
    pyRound ((cexFrameState1.secs + 5/8) * 2) - cexFrameState1.wroteFrames = 1 := by
  norm_num [cexFrameState1, nbFramesToNextNote, pyRound]

/-- C1 (amended): each `nbFramesToNextNote` call returns
`pyRound(cumulative ideal seconds × fps - frames already emitted)` (the
half-to-even rounding applied after subtracting the emitted count, which
equals `pyRound(ideal × fps) - emitted` except at exact half-frame ties
with an odd emitted count), adds that count to the emitted total and the
segment duration to the ideal clock; consequently, for every sequence of
segments, the absolute difference between total frames emitted and
cumulative ideal seconds × fps is at most 1 after every prefix. -/
theorem nbFramesToNextNote_formula_and_drift (fps : ℚ) (hfps : 0 < fps)
    (deltas : List ℚ) (n : ℕ) :
    (∀ (st : FrameState) (d : ℚ),
        (nbFramesToNextNote fps st d).1 =
          pyRound ((st.secs + d) * fps - st.wroteFrames) ∧
        (nbFramesToNextNote fps st d).2.wroteFrames =
          st.wroteFrames + (nbFramesToNextNote fps st d).1 ∧
        (nbFramesToNextNote fps st d).2.secs = st.secs + d) ∧
    |((runFrames fps (deltas.take n)).wroteFrames : ℚ) -
        (runFrames fps (deltas.take n)).secs * fps| ≤ 1 := by
  constructor
  · intro st d
    have hmul : (st.secs + d - (st.wroteFrames : ℚ) / fps) * fps =
        (st.secs + d) * fps - st.wroteFrames := by
      field_simp
    refine ⟨?_, rfl, rfl⟩
    show pyRound ((st.secs + d - (st.wroteFrames : ℚ) / fps) * fps) =
      pyRound ((st.secs + d) * fps - st.wroteFrames)
    rw [hmul]
  · simpa [runFrames] using
      runFrames_take_drift fps hfps.ne' deltas ⟨0, 0⟩ (by norm_num) n

/-- Witness for C1's amended theorem at `fps = 30` and the segment
durations of `testNbFramesToNextNote_withApprox_correction`. -/
theorem nbFramesToNextNote_formula_and_drift_witness :
    (0 : ℚ) < 30 ∧
    ((∀ (st : FrameState) (d : ℚ),
        (nbFramesToNextNote 30 st d).1 =
          pyRound ((st.secs + d) * 30 - st.wroteFrames) ∧
        (nbFramesToNextNote 30 st d).2.wroteFrames =
          st.wroteFrames + (nbFramesToNextNote 30 st d).1 ∧
        (nbFramesToNextNote 30 st d).2.secs = st.secs + d) ∧
    |((runFrames 30 ([370/384, 398/384].take 2)).wroteFrames : ℚ) -
        (runFrames 30 ([370/384, 398/384].take 2)).secs * 30| ≤ 1) :=
  ⟨by norm_num,
    nbFramesToNextNote_formula_and_drift 30 (by norm_num) [370/384, 398/384] 2⟩

/-- C2, counterexample.  With the timeline 60 bpm from tick 0 and 90 bpm
from tick 1152, at resolution 384: the whole interval `[0, 2304]` yields
4 s, but splitting at the interior tick 1152 yields 3 s + 2 s = 5 s,
because the loop prices the sub-interval that *ends* at a tempo change
at the new tempo.  `secsElapsedForTempoChanges` is not additive. -/
theorem secsElapsed_additivity_cex :
    addWhole.1 = 4 ∧ addPart1.1 = 3 ∧ addPart2.1 = 2 ∧
    addWhole.1 ≠ addPart1.1 + addPart2.1 := by
  norm_num [addWhole, addPart1, addPart2, tempoTwo, tcInit,
    secsElapsedForTempoChanges, secsLoop, ticksToSecs]

/-- C2 (amended): `secsElapsedForTempoChanges` is additive over
partitions at tick boundaries whenever every entry of the tempo timeline
carries the same bpm (in particular for a single initial tempo); with
distinct interior tempos additivity fails (see the counterexample),
because each sub-interval ending at a tempo change is priced at the new
tempo rather than the one active during it. -/
theorem secsElapsed_additive_constTempo (res c a m b : ℚ)
    (tempos : List (ℚ × ℚ)) (hc : ∀ p ∈ tempos, p.2 = c)
    (st : TCState) (hst : st.tempo = c) :
    (secsElapsedForTempoChanges res tempos st a b).1 =
      (secsElapsedForTempoChanges res tempos st a m).1 +
        (secsElapsedForTempoChanges res tempos
          (secsElapsedForTempoChanges res tempos st a m).2 m b).1 := by
  have hdrop : ∀ k : ℕ, ∀ p ∈ tempos.drop k, p.2 = c :=
    fun k p hp => hc p (List.drop_subset k tempos hp)
  have h1 := secsLoop_const res a b c (tempos.drop st.tempoIndex) (hdrop _) a
  have h2 := secsLoop_const res a m c (tempos.drop st.tempoIndex) (hdrop _) a
  simp only [secsElapsedForTempoChanges, hst]
  rw [h2.2, h1.1, h2.1,
    (secsLoop_const res m b c _ (hdrop _) m).1, ← ticksToSecs_add res c a m b]

/-- Witness for C2's amended theorem: constant 60 bpm timeline,
interval `[0, 768]` split at 384. -/
theorem secsElapsed_additive_constTempo_witness :
    (∀ p ∈ ([(0, 60)] : List (ℚ × ℚ)), p.2 = 60) ∧
    (tcInit [(0, 60)]).tempo = 60 ∧
    (secsElapsedForTempoChanges 384 [(0, 60)] (tcInit [(0, 60)]) 0 768).1 =
      (secsElapsedForTempoChanges 384 [(0, 60)] (tcInit [(0, 60)]) 0 384).1 +
        (secsElapsedForTempoChanges 384 [(0, 60)]
          (secsElapsedForTempoChanges 384 [(0, 60)]
            (tcInit [(0, 60)]) 0 384).2 384 768).1 :=
  ⟨by decide, by decide,
    secsElapsed_additive_constTempo 384 60 0 384 768 [(0, 60)] (by decide)
      (tcInit [(0, 60)]) (by decide)⟩

/-- C3: with tempo timeline `[(0,60),(1152,90),(3456,60)]` and resolution
384, the five queries of the spec's scenario B, issued in order against
one `TimeCode` (the state of `tempoIndex`/`tempo` persists between
calls, exactly as in `test.py`'s `testSecsElapsedForTempoChanges`),
return 3.0, 6.0, 4.0, 3.0 and 12.0 seconds. -/
theorem secsElapsed_scenarioB :
    scenB1.1 = 3 ∧ scenB2.1 = 6 ∧ scenB3.1 = 4 ∧ scenB4.1 = 3 ∧
    scenB5.1 = 12 := by
  norm_num [scenB1, scenB2, scenB3, scenB4, scenB5, tempoScenarioB, tcInit,
    secsElapsedForTempoChanges, secsLoop, ticksToSecs]

end Synchro

/-! ## Claim theorem about the tokenizer's parser stack -/

/-- C10: the lexer's parser-mode stack is never empty.  `reset` installs a
single `ToplevelParser`, and after any interleaving of the `enter`,
`leave`, `inc`, `dec` and `endArgument` operations the stack still holds
at least one parser: `leave`, `endArgument` and `dec` pop only while more
than one parser remains. -/
theorem tokenizer_stack_never_empty (ops : List Tok.TokOp) :
    (Tok.resetState Tok.ParserClass.toplevel).length = 1 ∧
    Tok.applyOps ops (Tok.resetState Tok.ParserClass.toplevel) ≠ [] :=
  ⟨rfl, Tok.applyOps_ne_nil ops _ (by simp [Tok.resetState])⟩

/-! ## Claim theorems about the MIDI extractor -/

/-- C7, counterexample.  On a MIDI file whose only music track has a
note-on on the very tick of its end-of-track event, the appended sentinel
tick (5) *does* have note events in the notes-by-tick map: the claim's
"this sentinel has no note events associated with it" fails. -/
theorem getMidiEvents_sentinel_cex :
    Cli.getMidiEvents Cli.noteOnFinalTickFile = .ok Cli.noteOnFinalTickData ∧
    Cli.noteOnFinalTickData.midiTicks.getLast? = some 5 ∧
    5 ∈ Cli.noteOnFinalTickData.notesInTicks.map Prod.fst := by
  refine ⟨rfl, rfl, by decide⟩

/-- C7 (amended): whenever `getMidiEvents` succeeds on a file whose
non-conductor tracks all end with an end-of-track event (of non-negative
absolute tick) and at least one such track exists, the last element of
the returned tick list is the maximum end-of-track tick across the
non-conductor tracks (the absolute tick of track `t`'s final event being
the sum of `t`'s delta times).  The sentinel need not be absent from the
notes-by-tick map: a note-on falling on that very tick (see the
counterexample) makes the sentinel duplicate a note-carrying tick. -/
theorem getMidiEvents_appends_max_eot (f : Cli.MidiFile)
    (h1 : ∀ t ∈ f.tracks.tail, ∃ e : Cli.MidiEvent,
      t.getLast? = some e ∧ e.kind = Cli.EventKind.endOfTrack)
    (h2 : ∀ t ∈ f.tracks.tail, 0 ≤ (t.map Cli.MidiEvent.time).sum)
    (h3 : f.tracks.tail ≠ [])
    (d : Cli.MidiData) (hok : Cli.getMidiEvents f = .ok d) :
    ∃ s : ℤ, d.midiTicks.getLast? = some s ∧
      (∀ t ∈ f.tracks.tail, (t.map Cli.MidiEvent.time).sum ≤ s) ∧
      (∃ t ∈ f.tracks.tail, (t.map Cli.MidiEvent.time).sum = s) := by
  have h0 : f.tracks ≠ [] := by
    intro h; rw [h] at h3; exact h3 rfl
  have htail : (Cli.make_time_abs f).tracks.tail =
      f.tracks.tail.map (Cli.absTrack 0) := by
    simp [Cli.make_time_abs, List.map_tail]
  have h1' : ∀ u ∈ (Cli.make_time_abs f).tracks.tail, ∃ e' : Cli.MidiEvent,
      u.getLast? = some e' ∧ e'.kind = Cli.EventKind.endOfTrack := by
    intro u hu
    rw [htail] at hu
    obtain ⟨t, ht, rfl⟩ := List.mem_map.mp hu
    obtain ⟨e, he, hk⟩ := h1 t ht
    obtain ⟨e', he', hk', _⟩ := Cli.absTrack_getLast? 0 t e he
    exact ⟨e', he', hk'.trans hk⟩
  obtain ⟨s, hfold, hacc, hbound, hmem⟩ :=
    Cli.endOfTrackFold_max ((Cli.make_time_abs f).tracks.tail) (-1) h1'
  simp only [Cli.getMidiEvents, h0, if_false, ite_false] at hok
  rw [hfold] at hok
  cases hnotes : Cli.getNotesInTicks (Cli.make_time_abs f) with
  | error e => rw [hnotes] at hok; simp at hok
  | ok notes =>
    rw [hnotes] at hok
    dsimp only at hok
    simp only [Except.ok.injEq] at hok
    subst hok
    refine ⟨s, ?_, ?_, ?_⟩
    · exact List.getLast?_concat _
    · intro t ht
      obtain ⟨e, he, hk⟩ := h1 t ht
      obtain ⟨e', he', _, htime⟩ := Cli.absTrack_getLast? 0 t e he
      have hu : Cli.absTrack 0 t ∈ (Cli.make_time_abs f).tracks.tail := by
        rw [htail]; exact List.mem_map_of_mem _ ht
      have := hbound _ hu e' he'
      rw [htime] at this
      linarith
    · rcases hmem with h | ⟨u, hu, e', he', htime⟩
      · exfalso
        obtain ⟨t, ht⟩ := List.exists_mem_of_ne_nil _ h3
        obtain ⟨e, he, hk⟩ := h1 t ht
        obtain ⟨e'', he'', _, htime''⟩ := Cli.absTrack_getLast? 0 t e he
        have hu : Cli.absTrack 0 t ∈ (Cli.make_time_abs f).tracks.tail := by
          rw [htail]; exact List.mem_map_of_mem _ ht
        have hb := hbound _ hu e'' he''
        have hnn := h2 t ht
        rw [htime''] at hb
        rw [h] at hb
        linarith
      · rw [htail] at hu
        obtain ⟨t, ht, rfl⟩ := List.mem_map.mp hu
        obtain ⟨e, he, hk⟩ := h1 t ht
        obtain ⟨e'', he'', _, htime''⟩ := Cli.absTrack_getLast? 0 t e he
        rw [he''] at he'
        cases he'
        refine ⟨t, ht, ?_⟩
        rw [← htime]
        rw [htime'']
        ring

/-! ## Claim theorems about the anchor extractor -/

/-- C8: for every positional trace, `getLeftmostGrobsByMoment` returns
exactly one anchor per distinct moment — one whose pixel x equals the
minimum over all trace lines sharing that moment — with the list ordered
by strictly ascending moment and every input moment represented. -/
theorem getLeftmostGrobsByMoment_minimal (dpi : ℚ) (margin : ℤ)
    (lines : List Cli.GrobLine) (l : List (ℚ × ℤ × Cli.LySrcLocation))
    (hok : Cli.getLeftmostGrobsByMoment dpi margin lines = .ok l) :
    (l.map Prod.fst).Pairwise (· < ·) ∧
    (∀ e ∈ l, (∃ g ∈ lines, g.moment = e.1 ∧ Cli.grobX dpi margin g = e.2.1) ∧
      ∀ g ∈ lines, g.moment = e.1 → e.2.1 ≤ Cli.grobX dpi margin g) ∧
    (∀ g ∈ lines, ∃ e ∈ l, e.1 = g.moment) := by
  have hrep := Cli.represents_foldl dpi margin lines [] []
    ⟨List.nodup_nil, by simp, by simp, by simp⟩
  rw [List.nil_append] at hrep
  simp only [Cli.getLeftmostGrobsByMoment] at hok
  obtain ⟨hnd, hfrom, hmin, hcov⟩ := hrep
  split_ifs at hok with hemp
  simp only [Except.ok.injEq] at hok
  subst hok
  have hkeysome : ∀ k ∈ Cli.pySorted
      ((lines.foldl (Cli.processLine dpi margin) []).map Prod.fst),
      ∃ v, Cli.lookupMoment (lines.foldl (Cli.processLine dpi margin) []) k =
        some v := by
    intro k hk
    exact Cli.mem_keys_lookup _ k ((Cli.pySorted_perm _).mem_iff.mp hk)
  have hmapfst := Cli.filterMap_lookup_keys
    (lines.foldl (Cli.processLine dpi margin) []) _ hkeysome
  refine ⟨?_, ?_, ?_⟩
  · rw [hmapfst]
    refine List.Pairwise.imp₂ (fun a b hab hne => lt_of_le_of_ne hab hne)
      (Cli.pySorted_sorted _) ?_
    exact (Cli.pySorted_perm _).nodup_iff.mpr hnd
  · intro e he
    obtain ⟨k, _, hfk⟩ := List.mem_filterMap.mp he
    obtain ⟨v, hv, hev⟩ := Option.map_eq_some'.mp hfk
    subst hev
    have hmem := Cli.lookupMoment_mem _ k v hv
    exact ⟨hfrom (k, v) hmem, fun g hg hgm => hmin (k, v) hmem g hg hgm⟩
  · intro g hg
    obtain ⟨e, he, hk⟩ := hcov g hg
    have h1 : e.1 ∈ Cli.pySorted
        ((lines.foldl (Cli.processLine dpi margin) []).map Prod.fst) :=
      (Cli.pySorted_perm _).mem_iff.mpr (List.mem_map_of_mem Prod.fst he)
    have h2 : Cli.lookupMoment (lines.foldl (Cli.processLine dpi margin) [])
        e.1 = some e.2 :=
      Cli.mem_lookupMoment _ hnd e.1 e.2 (by simpa using he)
    refine ⟨(e.1, e.2), List.mem_filterMap.mpr ⟨e.1, h1, ?_⟩, hk⟩
    rw [h2]
    rfl

/-- Witness for C8's theorem on a two-line trace. -/
theorem getLeftmostGrobsByMoment_minimal_witness :
    (Cli.grobWitnessOut.map Prod.fst).Pairwise (· < ·) ∧
    (∀ e ∈ Cli.grobWitnessOut,
      (∃ g ∈ Cli.grobWitnessLines, g.moment = e.1 ∧
        Cli.grobX (7227/500) 0 g = e.2.1) ∧
      ∀ g ∈ Cli.grobWitnessLines, g.moment = e.1 →
        e.2.1 ≤ Cli.grobX (7227/500) 0 g) ∧
    (∀ g ∈ Cli.grobWitnessLines, ∃ e ∈ Cli.grobWitnessOut, e.1 = g.moment) :=
  getLeftmostGrobsByMoment_minimal (7227/500) 0 Cli.grobWitnessLines
    Cli.grobWitnessOut
    (by
      norm_num [Cli.getLeftmostGrobsByMoment, Cli.processLine, Cli.grobX,
        Cli.staffSpacesToPixels, Cli.GLOBAL_STAFF_SIZE, pyRound,
        Cli.lookupMoment, Cli.setMoment, Cli.pySorted, Cli.insertSorted,
        Cli.grobWitnessLines, Cli.grobWitnessOut, Option.some_ne_none,
        List.filterMap_cons, Option.map_some']
      intro h
      simp at h)

/-- Witness for C7's amended theorem on a concrete two-track file. -/
theorem getMidiEvents_appends_max_eot_witness :
    ∃ s : ℤ, Cli.midiSentinelWitnessData.midiTicks.getLast? = some s ∧
      (∀ t ∈ Cli.midiSentinelWitnessFile.tracks.tail,
        (t.map Cli.MidiEvent.time).sum ≤ s) ∧
      (∃ t ∈ Cli.midiSentinelWitnessFile.tracks.tail,
        (t.map Cli.MidiEvent.time).sum = s) :=
  getMidiEvents_appends_max_eot Cli.midiSentinelWitnessFile
    (by
      intro t ht
      simp only [Cli.midiSentinelWitnessFile, List.tail_cons,
        List.mem_singleton] at ht
      subst ht
      exact ⟨⟨384, Cli.EventKind.endOfTrack⟩, rfl, rfl⟩)
    (by decide) (by decide) Cli.midiSentinelWitnessData rfl

end Ly2Video

namespace Ly2Video

theorem pyRound_natCast (m : ℕ) : pyRound ((m : ℕ) : ℚ) = m := by
  norm_num [pyRound]

namespace Cli

theorem lookupTick_range (f : ℕ → List MidiEvent) :
    ∀ (m a k : ℕ), a ≤ k → k < a + m →
      lookupTick ((List.range' a m).map fun t : ℕ => ((t : ℤ), f t)) (k : ℤ) =
        some (f k) := by
  intro m
  induction m with
  | zero => intro a k h1 h2; omega
  | succ m ih =>
    intro a k h1 h2
    rw [List.range'_succ a m 1, List.map_cons, lookupTick]
    by_cases hak : a = k
    · subst hak
      rw [if_pos rfl]
    · rw [if_neg (by exact_mod_cast hak)]
      exact ih (a + 1) k (by omega) (by omega)

theorem noteToken_locC_ne_q : noteToken (-5) 0 0 ≠ "q" := by
  intro hq
  have hrep : pyRepeat "," (-(-5 : ℤ) - 1) = ",,,," := by rfl
  rw [noteToken] at hq
  rw [if_pos (by norm_num : (-5 : ℤ) < -1), hrep] at hq
  have hd := congrArg String.data hq
  rw [String.data_append, String.data_append] at hd
  have hl := congrArg List.length hd
  rw [List.length_append, List.length_append] at hl
  have e4 : (",,,,").data.length = 4 := rfl
  have e1 : ("q").data.length = 1 := rfl
  rw [e4, e1] at hl
  omega

theorem resolve_locC (lc : LastChord) :
    resolveGrobPitch (noteToken locC.octave locC.notename locC.alteration)
      (absolutePitchValue locC.octave locC.notename locC.alteration) lc =
      .ok (.ratV 0) := by
  have ho : locC.octave = -5 := rfl
  have hn : locC.notename = 0 := rfl
  have ha : locC.alteration = 0 := rfl
  rw [ho, hn, ha]
  rw [resolveGrobPitch.eq_def, if_neg noteToken_locC_ne_q]
  have : absolutePitchValue (-5) 0 0 = 0 := by
    norm_num [absolutePitchValue, C_MAJOR_SCALE_STEPS]
  rw [this]

theorem skip_step_first (n : ℕ) :
    alignStep (skipInp n) ⟨0, skipTicks n, 0, [], .emptyL⟩ =
      .next (skipMid n 1) := by
  have h1 : (skipGrobs n).get? 0 = some (0, 10, locC) := by
    simp [skipGrobs]
  have h2 : (0 : ℕ) ≠ (skipTicks n).length := by
    simp [skipTicks]
  have h3 : (skipTicks n).get? 0 = some 0 := by
    rw [skipTicks, show List.range' 0 (n + 2) = 0 :: List.range' 1 (n + 1) from
      List.range'_succ 0 (n + 1) 1]
    simp
  have h5 : lookupTick (skipNotes n) (0 : ℤ) =
      some [⟨0, EventKind.noteOn 0 64⟩] := by
    have := lookupTick_range (fun t => [⟨(t : ℤ), EventKind.noteOn 0 64⟩])
      (n + 2) 0 0 (le_refl 0) (by omega)
    simpa [skipNotes] using this
  have h6 : pyRound ((0 : ℚ) * (1 : ℚ) * 4) = 0 := by
    norm_num [pyRound]
  have hticks : skipTicks n =
      0 :: ((List.range' 1 (n + 2 - 1)).map fun t : ℕ => (t : ℤ)) ++ [(n : ℤ) + 2] := by
    rw [skipTicks, List.range'_succ 0 (n + 1) 1, List.map_cons]
    simp
  have hded : pyDedup ([(⟨0, EventKind.noteOn 0 64⟩ : MidiEvent)].map eventNote) = [0] := by
    decide
  have hpv : pyValInPitches (.ratV 0) [0] = true := by decide
  unfold alignStep
  simp only [skipInp]
  rw [h1]
  dsimp only
  rw [if_neg h2, h3]
  dsimp only
  rw [resolve_locC]
  dsimp only
  rw [h5]
  dsimp only
  rw [h6, if_neg (lt_irrefl (0 : ℤ)), if_neg (lt_irrefl (0 : ℤ)), hded,
    if_neg (by rw [hpv]; simp)]
  rw [skipMid, hticks]
  norm_num

theorem skip_round (n : ℕ) : pyRound (((n : ℚ) + 1) / 4 * 1 * 4) = (n : ℤ) + 1 := by
  have h : ((n : ℚ) + 1) / 4 * 1 * 4 = (((n + 1 : ℕ) : ℕ) : ℚ) := by push_cast; ring
  rw [h, pyRound_natCast]
  push_cast
  ring

theorem skip_lookup (n k : ℕ) (hk : k < n + 2) :
    lookupTick (skipNotes n) (k : ℤ) =
      some [⟨(k : ℤ), EventKind.noteOn 0 64⟩] := by
  have := lookupTick_range (fun t => [⟨(t : ℤ), EventKind.noteOn 0 64⟩])
    (n + 2) 0 k (Nat.zero_le k) (by omega)
  simpa [skipNotes] using this

theorem skip_step_pop (n k : ℕ) (hk1 : 1 ≤ k) (hk2 : k < n + 1) :
    alignStep (skipInp n) (skipMid n k) = .next (skipMid n (k + 1)) := by
  have h1 : (skipGrobs n).get? 1 = some (((n : ℚ) + 1) / 4, 20, locC) := by
    simp [skipGrobs]
  have hsplit : n + 2 - k = (n + 1 - k) + 1 := by omega
  have hticks : (skipMid n k).midiTicks =
      0 :: ((k : ℤ) :: (List.range' (k + 1) (n + 1 - k)).map (fun t : ℕ => (t : ℤ))) ++
        [(n : ℤ) + 2] := by
    rw [skipMid]
    rw [hsplit, List.range'_succ k (n + 1 - k) 1, List.map_cons]
  have h2 : (1 : ℕ) ≠ (skipMid n k).midiTicks.length := by
    rw [hticks]
    simp
  have h3 : (skipMid n k).midiTicks.get? 1 = some (k : ℤ) := by
    rw [hticks]
    simp
  have h5 := skip_lookup n k (by omega)
  have h6 := skip_round n
  have hlt : (k : ℤ) < (n : ℤ) + 1 := by exact_mod_cast hk2
  have hi : (skipMid n k).i = 1 := rfl
  have hmi : (skipMid n k).midiIndex = 1 := rfl
  have hal : (skipMid n k).aligned = [10] := rfl
  have hlc : (skipMid n k).lastChord = .emptyL := rfl
  unfold alignStep
  simp only [skipInp]
  rw [hi, hmi, hlc, h1]
  dsimp only
  rw [if_neg h2, h3]
  dsimp only
  rw [resolve_locC]
  dsimp only
  rw [h5]
  dsimp only
  simp only [h6]
  rw [if_pos hlt]
  rw [hticks, hal]
  have hsplit2 : n + 2 - (k + 1) = n + 1 - k := by omega
  rw [skipMid, hsplit2]
  rfl

theorem skip_step_final (n : ℕ) :
    alignStep (skipInp n) (skipMid n (n + 1)) =
      .next ⟨2, (skipMid n (n + 1)).midiTicks, 2, [10, 20], .emptyL⟩ := by
  have h1 : (skipGrobs n).get? 1 = some (((n : ℚ) + 1) / 4, 20, locC) := by
    simp [skipGrobs]
  have hticks : (skipMid n (n + 1)).midiTicks =
      [0, (n : ℤ) + 1, (n : ℤ) + 2] := by
    have h : n + 2 - (n + 1) = 1 := by omega
    rw [skipMid, h]
    rfl
  have h2 : (1 : ℕ) ≠ (skipMid n (n + 1)).midiTicks.length := by
    rw [hticks]
    simp
  have h3 : (skipMid n (n + 1)).midiTicks.get? 1 = some ((n : ℤ) + 1) := by
    rw [hticks]
    simp
  have h5 : lookupTick (skipNotes n) ((n : ℤ) + 1) =
      some [⟨(n : ℤ) + 1, EventKind.noteOn 0 64⟩] := by
    have := skip_lookup n (n + 1) (by omega)
    simpa using this
  have h6 := skip_round n
  have hded : pyDedup ([(⟨(n : ℤ) + 1, EventKind.noteOn 0 64⟩ : MidiEvent)].map eventNote) =
      [0] := by
    rfl
  have hpv : pyValInPitches (.ratV 0) [0] = true := by decide
  have hi : (skipMid n (n + 1)).i = 1 := rfl
  have hmi : (skipMid n (n + 1)).midiIndex = 1 := rfl
  have hal : (skipMid n (n + 1)).aligned = [10] := rfl
  have hlc : (skipMid n (n + 1)).lastChord = .emptyL := rfl
  unfold alignStep
  simp only [skipInp]
  rw [hi, hmi, hlc, h1]
  dsimp only
  rw [if_neg h2, h3]
  dsimp only
  rw [resolve_locC]
  dsimp only
  rw [h5]
  dsimp only
  simp only [h6]
  rw [if_neg (lt_irrefl ((n : ℤ) + 1)), if_neg (lt_irrefl ((n : ℤ) + 1)), hded,
    if_neg (by rw [hpv]; simp)]
  rw [hal, hticks]
  norm_num

theorem skip_step_exit (n : ℕ) (ticks : List ℤ) :
    alignStep (skipInp n) ⟨2, ticks, 2, [10, 20], .emptyL⟩ =
      .exit ⟨2, ticks, 2, [10, 20], .emptyL⟩ := by
  unfold alignStep
  simp [skipInp, skipGrobs]

theorem skip_pop_phase (n : ℕ) :
    ∀ (j k : ℕ), 1 ≤ k → k + j = n + 1 →
      alignLoop (skipInp n) (skipMid n k) = alignLoop (skipInp n) (skipMid n (n + 1)) := by
  intro j
  induction j with
  | zero =>
    intro k _ hk
    have : k = n + 1 := by omega
    rw [this]
  | succ j ih =>
    intro k hk1 hk2
    rw [alignLoop_next (skipInp n) (skipMid n k) (skipMid n (k + 1))
      (skip_step_pop n k hk1 (by omega))]
    exact ih (k + 1) (by omega) (by omega)

theorem skipFamily_run (n : ℕ) :
    alignLoop (skipInp n) ⟨0, skipTicks n, 0, [], .emptyL⟩ =
      .ok ([10, 20], [0, (n : ℤ) + 1, (n : ℤ) + 2]) := by
  rw [alignLoop_next (skipInp n) _ (skipMid n 1) (skip_step_first n)]
  rw [skip_pop_phase n (n + 1 - 1) 1 (le_refl 1) (by omega)]
  rw [alignLoop_next (skipInp n) _ _ (skip_step_final n)]
  rw [alignLoop_exit (skipInp n) _ _ (skip_step_exit n (skipMid n (n + 1)).midiTicks)]
  have hticks : (skipMid n (n + 1)).midiTicks =
      [0, (n : ℤ) + 1, (n : ℤ) + 2] := by
    have h : n + 2 - (n + 1) = 1 := by omega
    rw [skipMid, h]
    rfl
  rw [postLoop, hticks]
  norm_num

theorem alignStep_inv (inp : AlignIn) (st s' : AlignSt)
    (hinv : AlignInv st) (h : alignStep inp st = .next s') : AlignInv s' := by
  obtain ⟨h1, h2⟩ := hinv
  unfold alignStep at h
  split at h
  · simp at h
  · rename_i moment index loc hget
    split at h
    · simp at h
    · rename_i hmi
      split at h
      · simp at h
      · rename_i midiTick hmt
        have hlt : st.midiIndex < st.midiTicks.length := by
          have := List.get?_eq_some.mp hmt
          exact this.1
        split at h
        · simp at h
        · rename_i pv hres
          split at h
          · split at h
            · simp at h
            · rename_i hnl
              injection h with h'
              subst h'
              refine ⟨fun ha => Or.inr ?_, fun h0 => ?_⟩
              · simp only []
                omega
              · exact absurd h0 (Nat.succ_ne_zero _)
          · rename_i events hlook
            dsimp only [] at h
            split at h
            · injection h with h'
              subst h'
              refine ⟨fun ha => ?_, fun h0 => h2 h0⟩
              rcases h1 ha with h0 | hlen
              · exact Or.inl h0
              · exact absurd hlen hmi
            · split at h
              · injection h with h'
                subst h'
                exact ⟨fun ha => (h1 ha).imp id (fun x => x), fun h0 => h2 h0⟩
              · split at h
                · split at h
                  · injection h with h'
                    subst h'
                    refine ⟨fun ha => ?_, fun h0 => ?_⟩
                    · exact absurd ha (by simp)
                    · exact absurd h0 (Nat.succ_ne_zero _)
                  · rename_i hmi0
                    injection h with h'
                    subst h'
                    refine ⟨fun ha => ?_, fun h0 => h2 h0⟩
                    rcases h1 ha with h0 | hlen
                    · exact absurd h0 hmi0
                    · exact absurd hlen hmi
                · injection h with h'
                  subst h'
                  refine ⟨fun ha => ?_, fun h0 => ?_⟩
                  · exact absurd ha (by simp)
                  · exact absurd h0 (Nat.succ_ne_zero _)

theorem alignReaches_inv (inp : AlignIn) (s t : AlignSt)
    (h : AlignReaches inp s t) (hinv : AlignInv s) : AlignInv t := by
  induction h with
  | refl => exact hinv
  | tail _ hstep ih => exact alignStep_inv inp _ _ ih hstep

theorem alignInv_init (ticks : List ℤ) :
    AlignInv ⟨0, ticks, 0, [], .emptyL⟩ :=
  ⟨fun _ => Or.inl rfl, fun _ => rfl⟩

/-- C4: with no anchors at all (hence zero sync points), `getNoteIndices`
aborts through `bug()` — the Bug tier with its internal-invariant
boilerplate — not through `fatal()`; the claim says the fewer-than-2-sync-
points abort is Fatal-tier "as opposed to" Bug-tier, which the source
contradicts: `cli.py` line 746 calls `bug("Not enough synchronization
points found!  Aborting.")`. -/
theorem getNoteIndices_bug_tier_cex :
    getNoteIndices [] 384 [] [] =
      .error (.bugE "Not enough synchronization points found!  Aborting.") := by
  rw [getNoteIndices,
    alignLoop_exit ⟨[], 384, []⟩ ⟨0, [], 0, [], .emptyL⟩ ⟨0, [], 0, [], .emptyL⟩ rfl]
  rfl

/-- C4 (amended): the alignment aborts (through the Bug tier, via `bug()`)
exactly when fewer than 2 sync points accumulate: every successful run
returns at least 2 sync points, and the post-loop check turns any state
with fewer than 2 accumulated sync points into the
"Not enough synchronization points" Bug-tier error. -/
theorem getNoteIndices_sync_guarantee :
    (∀ grobs res ticks notes l t,
      getNoteIndices grobs res ticks notes = .ok (l, t) → 2 ≤ l.length) ∧
    (∀ st : AlignSt, st.aligned.length < 2 →
      postLoop st =
        .error (.bugE "Not enough synchronization points found!  Aborting.")) := by
  constructor
  · intro grobs res ticks notes l t h
    exact alignLoop_ok_len ⟨grobs, res, notes⟩ ⟨0, ticks, 0, [], .emptyL⟩ l t h
  · intro st hst
    rw [postLoop, if_pos hst]

/-- C4 witness: the successful-run half at the two-anchor family input
with n = 0, and the post-loop half at the empty accumulator. -/
theorem getNoteIndices_sync_guarantee_witness :
    2 ≤ ([10, 20] : List ℤ).length ∧
    postLoop ⟨0, [], 0, [], .emptyL⟩ =
      .error (.bugE "Not enough synchronization points found!  Aborting.") := by
  constructor
  · refine getNoteIndices_sync_guarantee.1 (skipGrobs 0) 1 (skipTicks 0)
      (skipNotes 0) [10, 20] [0, 1, 2] ?_
    rw [getNoteIndices]
    have h := skipFamily_run 0
    rw [show (skipInp 0) = ⟨skipGrobs 0, 1, skipNotes 0⟩ from rfl] at h
    rw [h]
    norm_num
  · exact getNoteIndices_sync_guarantee.2 ⟨0, [], 0, [], .emptyL⟩ (by simp)

/-- C5: no consecutive-skip ceiling exists.  With anchors only at ticks 0
and 12, and notes on every tick 0 .. 12, the loop drops the 11
consecutive ticks 1 .. 11 through the case-2 branch without any abort
and returns normally — the claimed "small constant" ceiling converting
repeated drops into a Bug-class abort is not in the code. -/
theorem getNoteIndices_skip_ceiling_cex :
    getNoteIndices (skipGrobs 11) 1 (skipTicks 11) (skipNotes 11) =
      .ok ([10, 20], [0, 12, 13]) := by
  rw [getNoteIndices]
  have h := skipFamily_run 11
  rw [show (skipInp 11) = ⟨skipGrobs 11, 1, skipNotes 11⟩ from rfl] at h
  rw [h]
  norm_num

/-- C5 (amended): for every n, the two-anchor input whose tick list forces
n consecutive case-2 tick drops (ticks 1 .. n carry notes but no anchor)
completes successfully — the number of consecutive dropped ticks is
unbounded and never triggers an abort of any tier. -/
theorem getNoteIndices_no_skip_ceiling (n : ℕ) :
    getNoteIndices (skipGrobs n) 1 (skipTicks n) (skipNotes n) =
      .ok ([10, 20], [0, (n : ℤ) + 1, (n : ℤ) + 2]) := by
  rw [getNoteIndices]
  have h := skipFamily_run n
  rw [show (skipInp n) = ⟨skipGrobs n, 1, skipNotes n⟩ from rfl] at h
  rw [h]

/-- C6: at a coinciding-time pitch mismatch in any state reachable from an
initial loop state, "no sync point emitted yet" and `midiIndex == 0` are
equivalent; in that first-candidate case the pair is accepted and emitted
(tick pointer and anchor pointer advance, the index is appended), and in
every later mismatch the tick is dropped (`eraseIdx` at the tick pointer)
and the anchor pointer advances — matching `cli.py` lines 702-721. -/
theorem mismatch_first_accept (inp : AlignIn) (ticks : List ℤ) (st : AlignSt)
    (hreach : AlignReaches inp ⟨0, ticks, 0, [], .emptyL⟩ st)
    (moment : ℚ) (index : ℤ) (loc : LySrcLocation) (midiTick : ℤ)
    (pv : PyVal) (events : List MidiEvent)
    (hg : inp.grobs.get? st.i = some (moment, index, loc))
    (hne : ¬ st.midiIndex = st.midiTicks.length)
    (hmt : st.midiTicks.get? st.midiIndex = some midiTick)
    (hres : resolveGrobPitch (noteToken loc.octave loc.notename loc.alteration)
      (absolutePitchValue loc.octave loc.notename loc.alteration) st.lastChord =
        .ok pv)
    (hlook : lookupTick inp.notesInTicks midiTick = some events)
    (heq : pyRound (moment * inp.midiResolution * 4) = midiTick)
    (hmm : pyValInPitches pv (pyDedup (events.map eventNote)) = false) :
    (st.aligned = [] ↔ st.midiIndex = 0) ∧
    (st.aligned = [] →
      alignStep inp st = .next ⟨st.i + 1, st.midiTicks, st.midiIndex + 1,
        st.aligned ++ [index],
        if 1 < events.length then
          .strList (events.map fun e => toString (eventNote e))
        else .emptyL⟩) ∧
    (¬ st.aligned = [] →
      alignStep inp st = .next ⟨st.i + 1, st.midiTicks.eraseIdx st.midiIndex,
        st.midiIndex, st.aligned, st.lastChord⟩) := by
  have hinv := alignReaches_inv inp _ st hreach (alignInv_init ticks)
  have hiff : st.aligned = [] ↔ st.midiIndex = 0 := by
    constructor
    · intro ha
      rcases hinv.1 ha with h0 | hlen
      · exact h0
      · exact absurd hlen hne
    · exact hinv.2
  refine ⟨hiff, fun ha => ?_, fun ha => ?_⟩
  · have h0 : st.midiIndex = 0 := hiff.mp ha
    unfold alignStep
    rw [hg]
    dsimp only
    rw [if_neg hne, hmt]
    dsimp only
    rw [hres]
    dsimp only
    rw [hlook]
    dsimp only
    simp only [heq]
    rw [if_neg (lt_irrefl midiTick), if_neg (lt_irrefl midiTick)]
    simp only [hmm]
    rw [if_pos (by simp), if_pos h0]
  · have h0 : ¬ st.midiIndex = 0 := fun h => ha (hiff.mpr h)
    unfold alignStep
    rw [hg]
    dsimp only
    rw [if_neg hne, hmt]
    dsimp only
    rw [hres]
    dsimp only
    rw [hlook]
    dsimp only
    simp only [heq]
    rw [if_neg (lt_irrefl midiTick), if_neg (lt_irrefl midiTick)]
    simp only [hmm]
    rw [if_pos (by simp), if_neg h0]

/-- C6 witness: the single-anchor pitch-0 / single-tick pitch-7 input at
the initial state: the very first comparison is a coinciding mismatch,
and it is accepted. -/
theorem mismatch_first_accept_witness :
    (([] : List ℤ) = [] ↔ (0 : ℕ) = 0) ∧
    (([] : List ℤ) = [] →
      alignStep mismatchInp ⟨0, [0], 0, [], .emptyL⟩ =
        .next ⟨1, [0], 1, [10], .emptyL⟩) ∧
    (¬ ([] : List ℤ) = [] →
      alignStep mismatchInp ⟨0, [0], 0, [], .emptyL⟩ =
        .next ⟨1, [], 0, [], .emptyL⟩) := by
  have h := mismatch_first_accept mismatchInp [0] ⟨0, [0], 0, [], .emptyL⟩
    Relation.ReflTransGen.refl 0 10 locC 0 (.ratV 0) [⟨0, EventKind.noteOn 7 64⟩]
    rfl (by simp) rfl (resolve_locC _) rfl (by norm_num [pyRound]) (by decide)
  exact h

end Cli

namespace Tok

/-- C9: tokenizing the unterminated quoted string `"abc` and the
unterminated block comment `%\x7bx` produces ordinary token streams —
`StringQuoteStart`/`StringFragment` and
`BlockCommentStart`/`BlockCommentFragment` respectively — after which
`tokens()` simply returns: no error of any tier and no source location is
reported; the only trace is the parser stack left inside
`StringParser` / `BlockCommentParser`. -/
theorem tokens_unterminated_cex :
    tokenize ('"' :: "abc".data) =
      ([(.stringQuoteStart, ['"']), (.stringFragment, "abc".data)],
        [⟨.stringP, 0, 0⟩, ⟨.toplevel, 0, 0⟩], "nederlands") ∧
    tokenize ('%' :: '\x7b' :: "x".data) =
      ([(.blockCommentStart, ['%', '\x7b']), (.blockCommentFragment, ['x'])],
        [⟨.blockComment, 0, 0⟩, ⟨.toplevel, 0, 0⟩], "nederlands") :=
  ⟨rfl, rfl⟩

/-- C9 (amended): `tokens()` has no error path at all — for every fuel,
state and input it returns the accumulated token list extended by zero or
more tokens, never an error — and on the unterminated inputs of the
counterexample the stream ends with the tokenizer still inside
`StringParser` (resp. `BlockCommentParser`), the only observable effect
of the unterminated construct. -/
theorem tokens_end_normally :
    (∀ rfuel fuel stack lang s acc, ∃ toks stack2 lang2,
      tokensLoop rfuel fuel stack lang s acc = (acc ++ toks, stack2, lang2)) ∧
    ((tokenize ('"' :: "abc".data)).2.1.headD
      (mkParser .toplevel none)).cls = .stringP ∧
    ((tokenize ('%' :: '\x7b' :: "x".data)).2.1.headD
      (mkParser .toplevel none)).cls = .blockComment := by
  refine ⟨?_, rfl, rfl⟩
  intro rfuel fuel stack lang s acc
  induction fuel generalizing stack lang s acc with
  | zero => exact ⟨[], stack, lang, by simp [tokensLoop]⟩
  | succ fuel ih =>
    rw [tokensLoop]
    cases hsf : searchFrom rfuel (currentItems stack) s with
    | none =>
      by_cases hs : s.isEmpty
      · exact ⟨[], stack, lang, by simp [hs]⟩
      · exact ⟨[(.unparsed, s)], stack, lang, by simp [hs]⟩
    | some trip =>
      obtain ⟨skip, tc, rem⟩ := trip
      dsimp only
      by_cases h0 : 0 < skip
      · obtain ⟨toks, stack2, lang2, h⟩ := ih
          (applyAct tc.act ((s.drop skip).take ((s.drop skip).length - rem.length))
            stack lang).1
          (applyAct tc.act ((s.drop skip).take ((s.drop skip).length - rem.length))
            stack lang).2
          rem
          ((acc ++ [(.unparsed, s.take skip)]) ++
            [(tc.name, (s.drop skip).take ((s.drop skip).length - rem.length))])
        refine ⟨[(.unparsed, s.take skip)] ++
          [(tc.name, (s.drop skip).take ((s.drop skip).length - rem.length))] ++
          toks, stack2, lang2, ?_⟩
        rw [if_pos h0]
        rw [h]
        simp
      · obtain ⟨toks, stack2, lang2, h⟩ := ih
          (applyAct tc.act ((s.drop skip).take ((s.drop skip).length - rem.length))
            stack lang).1
          (applyAct tc.act ((s.drop skip).take ((s.drop skip).length - rem.length))
            stack lang).2
          rem
          (acc ++
            [(tc.name, (s.drop skip).take ((s.drop skip).length - rem.length))])
        refine ⟨[(tc.name, (s.drop skip).take ((s.drop skip).length - rem.length))] ++
          toks, stack2, lang2, ?_⟩
        rw [if_neg h0]
        rw [h]
        simp

end Tok

namespace Cli

end Cli
end Ly2Video
